import Mathlib

/-!
Verification of the form-field inference and synthesis core of the
pdfservice repository (`pages/views.py` and `form_creator/views.py`).

Numbers are modelled as exact rationals (`ℚ`); the Python source computes
with binary floating point, but every constant and every input exercised
below is exactly representable, and none of the comparisons involved sit
at a rounding boundary.  `math.sqrt` (used only in `_matrix_scale`) is
modelled by `ratSqrt`, which is exact on perfect squares; all matrices
appearing in the theorems below have determinant 1, where the two agree.
The raster detectors are embedded from the rendered grayscale image
onward: `render`/`to_pil` are external library calls, so the image enters
as its pixel width, height and row-major byte list.
-/

namespace PdfService

/-- Field kinds produced by the classifier/detectors
(`"text"`, `"checkbox"`, `"radio"` in the Python dictionaries). -/
inductive FType where
  | text
  | checkbox
  | radio
deriving DecidableEq, Repr

/-- A rect `[x1, y1, x2, y2]` as carried in the candidate dictionaries. -/
structure Rect4 where
  x1 : ℚ
  y1 : ℚ
  x2 : ℚ
  y2 : ℚ
deriving DecidableEq, Repr

/-- A field candidate: `{"type": ..., "rect": ..., "multiline": ...}`.
Checkbox/radio candidates carry no `multiline` key; `field.get("multiline")`
then yields `None`, i.e. `false` after `bool(...)`, which the default
mirrors. -/
structure Field where
  ftype : FType
  rect : Rect4
  multiline : Bool := false
deriving DecidableEq, Repr

/-- Python `round` (banker's rounding, half to even) on a rational. -/
def roundHalfEven (q : ℚ) : ℤ :=
  let f := ⌊q⌋
  let r := q - (f : ℚ)
  if r < 1/2 then f
  else if 1/2 < r then f + 1
  else if f % 2 = 0 then f else f + 1

/-- Python `round(x, 1)`: round to one decimal place. -/
def roundTenth (q : ℚ) : ℚ := (roundHalfEven (10 * q) : ℚ) / 10

/-- The dedupe key of `_dedupe_field_specs`:
`(type, bool(multiline), round(x1,1), round(y1,1), round(x2,1), round(y2,1))`. -/
def fieldKey (f : Field) : FType × Bool × ℚ × ℚ × ℚ × ℚ :=
  (f.ftype, f.multiline, roundTenth f.rect.x1, roundTenth f.rect.y1,
   roundTenth f.rect.x2, roundTenth f.rect.y2)

/-- Loop of `_dedupe_field_specs`, with the `seen` set as a list. -/
def dedupeAux : List (FType × Bool × ℚ × ℚ × ℚ × ℚ) → List Field → List Field
  | _, [] => []
  | seen, f :: rest =>
    if fieldKey f ∈ seen then dedupeAux seen rest
    else f :: dedupeAux (fieldKey f :: seen) rest

/-- `_dedupe_field_specs`: keep the first candidate of every key class. -/
def dedupeFieldSpecs (fields : List Field) : List Field := dedupeAux [] fields

/-- `_rects_intersect`. -/
def rectsIntersect (a b : Rect4) : Prop :=
  ¬ (a.x2 ≤ b.x1 ∨ a.x1 ≥ b.x2 ∨ a.y2 ≤ b.y1 ∨ a.y1 ≥ b.y2)

instance (a b : Rect4) : Decidable (rectsIntersect a b) := by
  unfold rectsIntersect; infer_instance

/-- The checkbox/radio rect list that `_remove_text_overlaps` collects. -/
def boxRects (fields : List Field) : List Rect4 :=
  (fields.filter fun f =>
    decide (f.ftype = FType.checkbox) || decide (f.ftype = FType.radio)).map
    Field.rect

/-- The per-field keep test of the `_remove_text_overlaps` loop:
non-text candidates are always appended; a text candidate is appended
unless its rect intersects one of the collected boxes. -/
def keepAgainst (boxes : List Rect4) (f : Field) : Bool :=
  if f.ftype ≠ FType.text then true
  else ! boxes.any fun b => decide (rectsIntersect f.rect b)

/-- `_remove_text_overlaps`. -/
def removeTextOverlaps (fields : List Field) : List Field :=
  let boxes := boxRects fields
  if boxes.isEmpty then fields
  else fields.filter (keepAgainst boxes)

/-- The per-page resolution step at the call site:
`_remove_text_overlaps(_dedupe_field_specs(page_fields))`. -/
def resolveCandidates (fields : List Field) : List Field :=
  removeTextOverlaps (dedupeFieldSpecs fields)

/-- Crop/media bounds of a page, `(left, bottom, right, top)`. -/
structure Bounds where
  left : ℚ
  bottom : ℚ
  right : ℚ
  top : ℚ
deriving DecidableEq, Repr

/-- `_clamp_rect`. -/
def clampRect (r : Rect4) (pb : Bounds) : Rect4 :=
  let a1 := max pb.left (min r.x1 pb.right)
  let a2 := max pb.left (min r.x2 pb.right)
  let b1 := max pb.bottom (min r.y1 pb.top)
  let b2 := max pb.bottom (min r.y2 pb.top)
  let x12 := if a2 < a1 then (a2, a1) else (a1, a2)
  let y12 := if b2 < b1 then (b2, b1) else (b1, b2)
  ⟨x12.1, y12.1, x12.2, y12.2⟩

/-! ### Geometry and the content-stream interpreter (`_extract_drawn_fields`) -/

/-- An affine matrix `[a, b, c, d, e, f]`. -/
structure Mat6 where
  ma : ℚ
  mb : ℚ
  mc : ℚ
  md : ℚ
  me : ℚ
  mf : ℚ
deriving DecidableEq, Repr

/-- The identity transform, the interpreter's initial `ctm`. -/
def matIdentity : Mat6 := ⟨1, 0, 0, 1, 0, 0⟩

/-- `_matrix_multiply`. -/
def matrixMultiply (m1 m2 : Mat6) : Mat6 :=
  ⟨m1.ma * m2.ma + m1.mb * m2.mc,
   m1.ma * m2.mb + m1.mb * m2.md,
   m1.mc * m2.ma + m1.md * m2.mc,
   m1.mc * m2.mb + m1.md * m2.md,
   m1.me * m2.ma + m1.mf * m2.mc + m2.me,
   m1.me * m2.mb + m1.mf * m2.md + m2.mf⟩

/-- `_transform_point`. -/
def transformPoint (m : Mat6) (x y : ℚ) : ℚ × ℚ :=
  (m.ma * x + m.mc * y + m.me, m.mb * x + m.md * y + m.mf)

/-- Model of `math.hypot`: exact on axis-aligned segments (the only ones
whose length any theorem below depends on); for skew segments the true
value is irrational in general and is modelled as 0. -/
def hypotModel (dx dy : ℚ) : ℚ :=
  if dy = 0 then |dx| else if dx = 0 then |dy| else 0

/-- Model of `math.sqrt` on a nonnegative rational: exact whenever the
argument is the square of a rational (every use in this development is on
determinant 1), 0 otherwise. -/
def ratSqrtModel (q : ℚ) : ℚ :=
  if 0 ≤ q.num ∧ Nat.sqrt q.num.toNat * Nat.sqrt q.num.toNat = q.num.toNat
      ∧ Nat.sqrt q.den * Nat.sqrt q.den = q.den
  then (Nat.sqrt q.num.toNat : ℚ) / (Nat.sqrt q.den : ℚ)
  else 0

/-- `_matrix_scale`: `math.sqrt(abs(a*d - b*c)) or 1.0`. -/
def matrixScale (m : Mat6) : ℚ :=
  let s := ratSqrtModel |m.ma * m.md - m.mb * m.mc|
  if s = 0 then 1 else s

/-- A path segment as built by `parse_stream`
(`{"kind": ..., "points"/"bbox": ..., "line_width": ...}`). -/
inductive Seg where
  | line (x1 y1 x2 y2 lw : ℚ)
  | rectSeg (bbox : Rect4) (lw : ℚ)
  | curve (points : List (ℚ × ℚ)) (lw : ℚ)
deriving DecidableEq, Repr

/-- The recorded line width of a segment. -/
def Seg.lw : Seg → ℚ
  | .line _ _ _ _ w => w
  | .rectSeg _ w => w
  | .curve _ w => w

/-- An entry of the `line_segments` list. -/
structure LineRec where
  x1 : ℚ
  x2 : ℚ
  y : ℚ
  stroke : ℚ
  length : ℚ
deriving DecidableEq, Repr

/-- An entry of the `vertical_segments` list. -/
structure VertRec where
  x : ℚ
  y1 : ℚ
  y2 : ℚ
  stroke : ℚ
  length : ℚ
deriving DecidableEq, Repr

/-- The classifier-facing accumulators of `_extract_drawn_fields`:
the `fields`, `line_segments` and `vertical_segments` lists. -/
structure ClsState where
  fields : List Field
  lineSegs : List LineRec
  vertSegs : List VertRec
deriving DecidableEq, Repr

/-- `max(10.0, page_width * 0.02)`. -/
def minLineLen (pb : Bounds) : ℚ := max 10 ((pb.right - pb.left) * (2/100))

/-- `_bbox_from_points` (the source never calls it on an empty list). -/
def bboxFromPoints : List (ℚ × ℚ) → Rect4
  | [] => ⟨0, 0, 0, 0⟩
  | p :: rest =>
    rest.foldl
      (fun r q => ⟨min r.x1 q.1, min r.y1 q.2, max r.x2 q.1, max r.y2 q.2⟩)
      ⟨p.1, p.2, p.1, p.2⟩

/-- `add_text_field_from_line` (its `stroke_width` parameter is unused in
the source as well). -/
def addTextFieldFromLine (pb : Bounds) (bbox : Rect4) (cls : ClsState) :
    ClsState :=
  let lineY := max bbox.y1 bbox.y2
  let height := max 12 (min 16 (14 : ℚ))
  let rect := clampRect ⟨bbox.x1, lineY, bbox.x2, lineY + height⟩ pb
  if rect.x2 - rect.x1 < 6 then cls
  else { cls with fields := cls.fields ++ [⟨FType.text, rect, false⟩] }

/-- `add_line_segment`. -/
def addLineSegment (pb : Bounds) (x1 y1 x2 y2 strokeWidth : ℚ)
    (cls : ClsState) : ClsState :=
  if |y2 - y1| > 4 then cls
  else
    let length := hypotModel (x2 - x1) (y2 - y1)
    if length < minLineLen pb then cls
    else
      let yMid := (y1 + y2) / 2
      if yMid ≤ pb.bottom + 2 ∨ yMid ≥ pb.top - 2 then cls
      else
        { cls with lineSegs := cls.lineSegs ++
            [⟨min x1 x2, max x1 x2, yMid, strokeWidth, length⟩] }

/-- `add_vertical_segment`. -/
def addVerticalSegment (pb : Bounds) (x1 y1 x2 y2 strokeWidth : ℚ)
    (cls : ClsState) : ClsState :=
  if |x2 - x1| > 4 then cls
  else
    let length := hypotModel (x2 - x1) (y2 - y1)
    if length < 8 then cls
    else
      let xMid := (x1 + x2) / 2
      if xMid ≤ pb.left + 2 ∨ xMid ≥ pb.right - 2 then cls
      else
        { cls with vertSegs := cls.vertSegs ++
            [⟨xMid, min y1 y2, max y1 y2, strokeWidth, length⟩] }

/-- `add_text_field_from_box`. -/
def addTextFieldFromBox (pb : Bounds) (bbox : Rect4) (strokeWidth : ℚ)
    (cls : ClsState) : ClsState :=
  let inset := max (3/2) (strokeWidth * (12/10))
  let rect := clampRect
    ⟨bbox.x1 + inset, bbox.y1 + inset, bbox.x2 - inset, bbox.y2 - inset⟩ pb
  if rect.x2 - rect.x1 < 10 ∨ rect.y2 - rect.y1 < 8 then cls
  else
    { cls with fields := cls.fields ++
        [⟨FType.text, rect, if rect.y2 - rect.y1 ≥ 24 then true else false⟩] }

/-- `add_checkbox`. -/
def addCheckbox (pb : Bounds) (bbox : Rect4) (cls : ClsState) : ClsState :=
  { cls with fields := cls.fields ++
      [⟨FType.checkbox, clampRect bbox pb, false⟩] }

/-- `add_radio`. -/
def addRadio (pb : Bounds) (bbox : Rect4) (cls : ClsState) : ClsState :=
  { cls with fields := cls.fields ++
      [⟨FType.radio, clampRect bbox pb, false⟩] }

/-- `max(seg.get("line_width", 1.0) for seg in path_segments)`. -/
def segsMaxLw : List Seg → ℚ
  | [] => 1
  | s :: rest => rest.foldl (fun acc t => max acc t.lw) s.lw

/-- Endpoint collection for the all-line branch of `classify_path`. -/
def linePoints : List Seg → List (ℚ × ℚ)
  | [] => []
  | .line x1 y1 x2 y2 _ :: rest => (x1, y1) :: (x2, y2) :: linePoints rest
  | _ :: rest => linePoints rest

/-- Point collection for the curve branch of `classify_path`. -/
def curvePoints : List Seg → List (ℚ × ℚ)
  | [] => []
  | .curve ps _ :: rest => ps ++ curvePoints rest
  | _ :: rest => curvePoints rest

/-- The per-segment loop at the end of `classify_path`. -/
def classifySegLoop (pb : Bounds) (strokeWidth : ℚ) :
    List Seg → ClsState → ClsState
  | [], cls => cls
  | .rectSeg bbox _ :: rest, cls =>
    let width := bbox.x2 - bbox.x1
    let height := bbox.y2 - bbox.y1
    if width ≤ 0 ∨ height ≤ 0 then classifySegLoop pb strokeWidth rest cls
    else if height ≤ 4 ∧ width ≥ minLineLen pb then
      classifySegLoop pb strokeWidth rest
        (addLineSegment pb bbox.x1 bbox.y1 bbox.x2 bbox.y2 strokeWidth cls)
    else if 8 ≤ width ∧ width ≤ 26 ∧ 8 ≤ height ∧ height ≤ 26 ∧
        4/5 ≤ width / height ∧ width / height ≤ 5/4 then
      classifySegLoop pb strokeWidth rest (addCheckbox pb bbox cls)
    else
      classifySegLoop pb strokeWidth rest
        (addVerticalSegment pb bbox.x2 bbox.y1 bbox.x2 bbox.y2 strokeWidth
          (addVerticalSegment pb bbox.x1 bbox.y1 bbox.x1 bbox.y2 strokeWidth
            (addLineSegment pb bbox.x1 bbox.y2 bbox.x2 bbox.y2 strokeWidth
              (addLineSegment pb bbox.x1 bbox.y1 bbox.x2 bbox.y1 strokeWidth
                cls))))
  | .line x1 y1 x2 y2 _ :: rest, cls =>
    if |y2 - y1| > 4 then
      if |x2 - x1| ≤ 4 then
        classifySegLoop pb strokeWidth rest
          (addVerticalSegment pb x1 y1 x2 y2 strokeWidth cls)
      else classifySegLoop pb strokeWidth rest cls
    else
      classifySegLoop pb strokeWidth rest
        (addLineSegment pb x1 y1 x2 y2 strokeWidth cls)
  | .curve _ _ :: rest, cls => classifySegLoop pb strokeWidth rest cls

/-- `seg["kind"] == "curve"`. -/
def isCurveSeg : Seg → Prop
  | .curve _ _ => True
  | _ => False

instance : DecidablePred isCurveSeg := fun s => by
  cases s <;> simp only [isCurveSeg] <;> infer_instance

/-- `seg["kind"] in ("rect", "line")`. -/
def isRectOrLineSeg : Seg → Prop
  | .curve _ _ => False
  | _ => True

instance : DecidablePred isRectOrLineSeg := fun s => by
  cases s <;> simp only [isRectOrLineSeg] <;> infer_instance

/-- `seg["kind"] == "line"`. -/
def isLineSeg : Seg → Prop
  | .line _ _ _ _ _ => True
  | _ => False

instance : DecidablePred isLineSeg := fun s => by
  cases s <;> simp only [isLineSeg] <;> infer_instance

/-- `classify_path`. -/
def classifyPath (pb : Bounds) (pathSegments : List Seg) (cls : ClsState) :
    ClsState :=
  if pathSegments = [] then cls
  else
    let strokeWidth := segsMaxLw pathSegments
    let hasCurve := ∃ s ∈ pathSegments, isCurveSeg s
    let hasRectLine := ∃ s ∈ pathSegments, isRectOrLineSeg s
    if hasCurve ∧ ¬ hasRectLine then
      let bbox := bboxFromPoints (curvePoints pathSegments)
      let width := bbox.x2 - bbox.x1
      let height := bbox.y2 - bbox.y1
      let aspect := if height ≠ 0 then width / height else 0
      if 8 ≤ width ∧ width ≤ 26 ∧ 8 ≤ height ∧ height ≤ 26 ∧
          4/5 ≤ aspect ∧ aspect ≤ 5/4 then
        addRadio pb bbox cls
      else cls
    else if (∀ s ∈ pathSegments, isLineSeg s) ∧
        (let bbox := bboxFromPoints (linePoints pathSegments)
         let width := bbox.x2 - bbox.x1
         let height := bbox.y2 - bbox.y1
         8 ≤ width ∧ width ≤ 26 ∧ 8 ≤ height ∧ height ≤ 26 ∧
           (if height ≠ 0 then width / height else 0) ≥ 4/5 ∧
           (if height ≠ 0 then width / height else 0) ≤ 5/4 ∧
           pathSegments.length ≥ 3) then
      addCheckbox pb (bboxFromPoints (linePoints pathSegments)) cls
    else classifySegLoop pb strokeWidth pathSegments cls

/-- An operand as handed to `float(...)`: `none` models a value that makes
`float` raise (non-numeric or missing). -/
def floatList : List (Option ℚ) → Option (List ℚ)
  | [] => some []
  | none :: _ => none
  | some q :: rest =>
    match floatList rest with
    | some l => some (q :: l)
    | none => none

/-- The content-stream instructions that `parse_stream` dispatches on.
Operators outside the dispatch table fall through as `otherOp`. -/
inductive Op where
  | qSave
  | qRestore
  | cmOp (args : List (Option ℚ))
  | wOp (args : List (Option ℚ))
  | doOp (name : String)
  | mOp (args : List (Option ℚ))
  | lOp (args : List (Option ℚ))
  | reOp (args : List (Option ℚ))
  | cOp (args : List (Option ℚ))
  | vOp (args : List (Option ℚ))
  | yOp (args : List (Option ℚ))
  | paintOp
  | clearOp
  | otherOp
deriving DecidableEq, Repr

/-- A form XObject as the `Do` handler probes it: its `/Subtype` check, the
decodability of its stream, its optional `/Matrix`, its optional own
`/Resources` (the XObject names visible inside), and its instructions.
The document's object graph is modelled as a name-indexed table, which is
how indirect references (and hence cyclic-looking chains) arise in the
source. -/
structure XForm where
  isForm : Bool
  decodeOk : Bool
  matrix : Option (List (Option ℚ))
  resNames : Option (List String)
  content : List Op
deriving Repr

/-- The mutable interpreter state of one `parse_stream` invocation. -/
structure IState where
  ctm : Mat6
  stack : List (Mat6 × ℚ × Option (ℚ × ℚ) × List Seg × List (List Seg))
  lineWidth : ℚ
  currentPoint : Option (ℚ × ℚ)
  subpaths : List (List Seg)
  currentPath : List Seg
deriving Repr

/-- Flush the open path into `subpaths` (`if current_path: ...`). -/
def flushPath (st : IState) : IState :=
  if st.currentPath = [] then st
  else { st with subpaths := st.subpaths ++ [st.currentPath], currentPath := [] }

/-- The operator loop of `parse_stream`; `descend` is the recursive call
made by the `Do` handler (one depth level further down). -/
def stepOps (pb : Bounds) (env : List (String × XForm))
    (descend : Option (List String) → List Op → Mat6 → ℚ → ClsState → ClsState) :
    Option (List String) → List Op → IState → ClsState → ClsState
  | _, [], _, cls => cls
  | res, op :: rest, st, cls =>
    match op with
    | .qSave =>
      stepOps pb env descend res rest
        { st with
          stack := (st.ctm, st.lineWidth, st.currentPoint, st.currentPath,
            st.subpaths) :: st.stack,
          currentPoint := none, currentPath := [], subpaths := [] } cls
    | .qRestore =>
      match st.stack with
      | (ctm, lw, cp, path, sps) :: restStack =>
        stepOps pb env descend res rest
          { ctm := ctm, stack := restStack, lineWidth := lw,
            currentPoint := cp, currentPath := path, subpaths := sps } cls
      | [] =>
        stepOps pb env descend res rest
          { ctm := matIdentity, stack := [], lineWidth := 1,
            currentPoint := none, currentPath := [], subpaths := [] } cls
    | .cmOp args =>
      match floatList args with
      | some [a, b, c, d, e, f] =>
        stepOps pb env descend res rest
          { st with ctm := matrixMultiply st.ctm ⟨a, b, c, d, e, f⟩ } cls
      | _ => stepOps pb env descend res rest st cls
    | .wOp args =>
      match args with
      | some q :: _ =>
        stepOps pb env descend res rest { st with lineWidth := q } cls
      | _ => stepOps pb env descend res rest { st with lineWidth := 1 } cls
    | .doOp name =>
      let cls2 :=
        match res with
        | none => cls
        | some names =>
          if names = [] then cls
          else if name ∈ names then
            match env.lookup name with
            | none => cls
            | some xf =>
              if xf.isForm = false then cls
              else if xf.decodeOk = false then cls
              else
                let xres :=
                  match xf.resNames with
                  | some r => if r = [] then res else some r
                  | none => res
                let xctm :=
                  match xf.matrix with
                  | some margs =>
                    if margs.length = 6 then
                      match floatList margs with
                      | some [a, b, c, d, e, f] =>
                        matrixMultiply st.ctm ⟨a, b, c, d, e, f⟩
                      | _ => st.ctm
                    else st.ctm
                  | none => st.ctm
                descend xres xf.content xctm st.lineWidth cls
          else cls
      stepOps pb env descend res rest st cls2
    | .mOp args =>
      let st2 := flushPath st
      match args with
      | some x :: some y :: _ =>
        stepOps pb env descend res rest
          { st2 with currentPoint := some (transformPoint st.ctm x y) } cls
      | _ =>
        stepOps pb env descend res rest { st2 with currentPoint := none } cls
    | .lOp args =>
      match st.currentPoint with
      | none => stepOps pb env descend res rest st cls
      | some cp =>
        match args with
        | some x :: some y :: _ =>
          let ep := transformPoint st.ctm x y
          stepOps pb env descend res rest
            { st with
              currentPath := st.currentPath ++
                [Seg.line cp.1 cp.2 ep.1 ep.2 (st.lineWidth * matrixScale st.ctm)],
              currentPoint := some ep } cls
        | _ => stepOps pb env descend res rest st cls
    | .reOp args =>
      match args with
      | some x :: some y :: some w :: some h :: _ =>
        let bbox := bboxFromPoints
          [transformPoint st.ctm x y, transformPoint st.ctm (x + w) y,
           transformPoint st.ctm (x + w) (y + h), transformPoint st.ctm x (y + h)]
        let st2 := flushPath st
        stepOps pb env descend res rest
          { st2 with subpaths := st2.subpaths ++
              [[Seg.rectSeg bbox (st.lineWidth * matrixScale st.ctm)]] } cls
      | _ => stepOps pb env descend res rest st cls
    | .cOp args =>
      match args with
      | some c0 :: some c1 :: some c2 :: some c3 :: some c4 :: some c5 :: _ =>
        let base := match st.currentPoint with | some cp => [cp] | none => []
        let pts := base ++
          [transformPoint st.ctm c0 c1, transformPoint st.ctm c2 c3,
           transformPoint st.ctm c4 c5]
        stepOps pb env descend res rest
          { st with
            currentPath := st.currentPath ++
              [Seg.curve pts (st.lineWidth * matrixScale st.ctm)],
            currentPoint := some (transformPoint st.ctm c4 c5) } cls
      | _ => stepOps pb env descend res rest st cls
    | .vOp args =>
      match args with
      | some c0 :: some c1 :: some c2 :: some c3 :: _ =>
        let base := match st.currentPoint with | some cp => [cp] | none => []
        let pts := base ++
          [transformPoint st.ctm c0 c1, transformPoint st.ctm c2 c3]
        stepOps pb env descend res rest
          { st with
            currentPath := st.currentPath ++
              [Seg.curve pts (st.lineWidth * matrixScale st.ctm)],
            currentPoint := some (transformPoint st.ctm c2 c3) } cls
      | _ => stepOps pb env descend res rest st cls
    | .yOp args =>
      match args with
      | some c0 :: some c1 :: some c2 :: some c3 :: _ =>
        let base := match st.currentPoint with | some cp => [cp] | none => []
        let pts := base ++
          [transformPoint st.ctm c0 c1, transformPoint st.ctm c2 c3]
        stepOps pb env descend res rest
          { st with
            currentPath := st.currentPath ++
              [Seg.curve pts (st.lineWidth * matrixScale st.ctm)],
            currentPoint := some (transformPoint st.ctm c2 c3) } cls
      | _ => stepOps pb env descend res rest st cls
    | .paintOp =>
      let st2 := flushPath st
      let cls2 := st2.subpaths.foldl (fun acc sp => classifyPath pb sp acc) cls
      stepOps pb env descend res rest { st2 with subpaths := [] } cls2
    | .clearOp =>
      stepOps pb env descend res rest
        { st with currentPath := [], subpaths := [] } cls
    | .otherOp => stepOps pb env descend res rest st cls

/-- `parse_stream`, indexed by the remaining depth budget: an invocation at
Python depth `d` corresponds to `gas = 9 - d`, so the `depth > 8` guard is
the `gas = 0` case and a `Do` descends with one unit of gas less. -/
def parseStream (pb : Bounds) (env : List (String × XForm)) :
    Nat → Option (List String) → List Op → Mat6 → ℚ → ClsState → ClsState
  | 0, _, _, _, _, cls => cls
  | Nat.succ gas, res, ops, startCtm, startLw, cls =>
    stepOps pb env (parseStream pb env gas) res ops
      ⟨startCtm, [], startLw, none, [], []⟩ cls

/-! ### The pairing phase of `_extract_drawn_fields` -/

/-- `has_vertical_at` (over the filtered `vertical_lines`). -/
def hasVerticalAt (vls : List VertRec) (x yLow yHigh : ℚ) : Prop :=
  ∃ v ∈ vls, |v.x - x| ≤ 5/2 ∧ v.length ≥ 12 ∧
    v.y1 ≤ yLow + 5/2 ∧ v.y2 ≥ yHigh - 5/2

instance (vls : List VertRec) (x yLow yHigh : ℚ) :
    Decidable (hasVerticalAt vls x yLow yHigh) := by
  unfold hasVerticalAt; infer_instance

/-- `has_internal_line` (over the filtered `horizontal_lines`). -/
def hasInternalLine (hls : List LineRec) (x1 x2 yLow yHigh : ℚ) : Prop :=
  ∃ s ∈ hls, (yLow + 3 < s.y ∧ s.y < yHigh - 3) ∧
    0 < min x2 s.x2 - max x1 s.x1 ∧
    0 < max (x2 - x1) (s.x2 - s.x1) ∧
    (min x2 s.x2 - max x1 s.x1) / max (x2 - x1) (s.x2 - s.x1) ≥ 4/5

instance (hls : List LineRec) (x1 x2 yLow yHigh : ℚ) :
    Decidable (hasInternalLine hls x1 x2 yLow yHigh) := by
  unfold hasInternalLine; infer_instance

/-- The `horizontal_lines` comprehension. -/
def filterHorizontal (pb : Bounds) : List LineRec → List LineRec
  | [] => []
  | s :: rest =>
    if s.length ≥ minLineLen pb ∧ pb.bottom + 2 < s.y ∧ s.y < pb.top - 2
    then s :: filterHorizontal pb rest
    else filterHorizontal pb rest

/-- The `vertical_lines` comprehension. -/
def filterVertical : List VertRec → List VertRec
  | [] => []
  | v :: rest =>
    if v.length ≥ 8 then v :: filterVertical rest else filterVertical rest

/-- The `rect_candidates` comprehension (indices into `horizontal_lines`). -/
def filterRectCands : List (Nat × LineRec) → List (Nat × LineRec)
  | [] => []
  | p :: rest =>
    if p.2.stroke ≤ 5/2 then p :: filterRectCands rest
    else filterRectCands rest

/-- Stable insertion for the `sort(key=lambda item: item[1]["y"])` call. -/
def insertByY (p : Nat × LineRec) : List (Nat × LineRec) → List (Nat × LineRec)
  | [] => [p]
  | q :: rest =>
    if p.2.y ≤ q.2.y then p :: q :: rest else q :: insertByY p rest

/-- Stable sort of the rect candidates by `y`. -/
def sortByY : List (Nat × LineRec) → List (Nat × LineRec)
  | [] => []
  | p :: rest => insertByY p (sortByY rest)

/-- Outcome of the guard ladder of one inner (`j`) iteration of the
pairing pass: `skip` is the loop's `continue`, `stop` its `break` on a
too-large vertical gap, and `mk` carries the clamped candidate rect of a
successful pair. -/
inductive PairStep where
  | skip
  | stop
  | mk (rect : Rect4)
deriving DecidableEq, Repr

/-- The guard ladder run for one `(top_seg, bottom_seg)` pair. -/
def pairStep (pb : Bounds) (hls : List LineRec) (vls : List VertRec)
    (topSeg botSeg : LineRec) : PairStep :=
  let yDiff := botSeg.y - topSeg.y
  if yDiff < 12 then .skip
  else if yDiff > 32 then .stop
  else
    let overlap := min topSeg.x2 botSeg.x2 - max topSeg.x1 botSeg.x1
    if overlap ≤ 0 then .skip
    else
      let maxWidth := max (topSeg.x2 - topSeg.x1) (botSeg.x2 - botSeg.x1)
      if maxWidth ≤ 0 then .skip
      else if overlap / maxWidth < 4/5 then .skip
      else
        let x1 := max topSeg.x1 botSeg.x1
        let x2 := min topSeg.x2 botSeg.x2
        if x2 - x1 < 20 then .skip
        else
          let ys := if botSeg.y ≤ topSeg.y then (botSeg.y, topSeg.y)
            else (topSeg.y, botSeg.y)
          if ¬ (hasVerticalAt vls x1 ys.1 ys.2 ∧
              hasVerticalAt vls x2 ys.1 ys.2) then .skip
          else if hasInternalLine hls x1 x2 ys.1 ys.2 then .skip
          else .mk (clampRect ⟨x1 + 3/2, ys.1 + 3/2, x2 - 3/2, ys.2 - 3/2⟩ pb)

/-- The inner (`j`) loop of the pairing pass for one `top_seg`: returns the
indices added to `used_lines` and the text field appended on success.  A
pair whose clamped height falls under the minimum has already marked both
lines used but continues scanning, exactly as the source does. -/
def pairInner (pb : Bounds) (hls : List LineRec) (vls : List VertRec)
    (topIdx : Nat) (topSeg : LineRec) :
    List (Nat × LineRec) → List Nat × Option Field
  | [] => ([], none)
  | (idx2, botSeg) :: rest =>
    match pairStep pb hls vls topSeg botSeg with
    | .skip => pairInner pb hls vls topIdx topSeg rest
    | .stop => ([], none)
    | .mk rect =>
      if rect.y2 - rect.y1 < 12 then
        let more := pairInner pb hls vls topIdx topSeg rest
        (topIdx :: idx2 :: more.1, more.2)
      else
        ([topIdx, idx2],
         some ⟨FType.text, rect,
           if rect.y2 - rect.y1 ≥ 24 then true else false⟩)

/-- The outer (`i`) loop of the pairing pass: text fields in discovery
order together with all indices added to `used_lines`. -/
def pairOuter (pb : Bounds) (hls : List LineRec) (vls : List VertRec) :
    List (Nat × LineRec) → List Field × List Nat
  | [] => ([], [])
  | (idx, seg) :: rest =>
    let inner := pairInner pb hls vls idx seg rest
    let outer := pairOuter pb hls vls rest
    ((match inner.2 with | some f => f :: outer.1 | none => outer.1),
     inner.1 ++ outer.2)

/-- The bare-underline loop over `enumerate(horizontal_lines)`. -/
def underlinePass (pb : Bounds) (used : List Nat) :
    List (Nat × LineRec) → ClsState → ClsState
  | [], cls => cls
  | (idx, seg) :: rest, cls =>
    if seg.stroke > 5/2 then underlinePass pb used rest cls
    else if idx ∈ used then underlinePass pb used rest cls
    else underlinePass pb used rest
      (addTextFieldFromLine pb ⟨seg.x1, seg.y, seg.x2, seg.y⟩ cls)

/-- `_extract_drawn_fields`: `decodeOk = false` models a page whose
contents are absent or whose `ContentStream` constructor raises. -/
def extractDrawnFields (pb : Bounds) (env : List (String × XForm))
    (pageRes : Option (List String)) (decodeOk : Bool) (ops : List Op) :
    List Field :=
  if decodeOk = false then []
  else
    let cls := parseStream pb env 9 pageRes ops matIdentity 1 ⟨[], [], []⟩
    let cls2 :=
      if cls.lineSegs = [] then cls
      else
        let hls := filterHorizontal pb cls.lineSegs
        let vls := filterVertical cls.vertSegs
        let cands := sortByY (filterRectCands hls.enum)
        let paired := pairOuter pb hls vls cands
        underlinePass pb paired.2 hls.enum
          { cls with fields := cls.fields ++ paired.1 }
    dedupeFieldSpecs cls2.fields


/-! ### Raster detectors (`_detect_checkbox_fields_from_raster`,
`_detect_line_fields_from_raster`)

Both detectors are embedded from the rendered grayscale image onward
(`render`/`to_pil` are external library calls): the image enters as its
pixel width, height and row-major byte list, rendered at scale 2, and
reads outside the byte list default to white. -/

/-- One neighbour probe of the flood-fill loop of
`_detect_checkbox_fields_from_raster`: out-of-image, already-visited and
light (`>= threshold`) pixels are skipped; a dark unvisited pixel is
marked visited and pushed onto the stack. -/
def floodPush (pixels : List ℕ) (w h : ℕ) (s : Finset ℕ × List ℕ)
    (p : ℤ × ℤ) : Finset ℕ × List ℕ :=
  if p.1 < 0 ∨ (w : ℤ) ≤ p.1 ∨ p.2 < 0 ∨ (h : ℤ) ≤ p.2 then s
  else if p.2.toNat * w + p.1.toNat ∈ s.1 then s
  else if 170 ≤ pixels.getD (p.2.toNat * w + p.1.toNat) 255 then s
  else (insert (p.2.toNat * w + p.1.toNat) s.1,
    (p.2.toNat * w + p.1.toNat) :: s.2)

/-- The four neighbour probes of one flood-fill iteration, in the source's
order: left, right, up, down. -/
def floodNbrs (pixels : List ℕ) (w h cx cy : ℕ) (s : Finset ℕ × List ℕ) :
    Finset ℕ × List ℕ :=
  floodPush pixels w h (floodPush pixels w h (floodPush pixels w h
    (floodPush pixels w h s ((cx : ℤ) - 1, (cy : ℤ))) ((cx : ℤ) + 1, (cy : ℤ)))
    ((cx : ℤ), (cy : ℤ) - 1)) ((cx : ℤ), (cy : ℤ) + 1)

/-- Termination measure of the flood fill: stack size plus twice the
number of in-image pixels not yet visited. -/
def fpMeasure (w h : ℕ) (s : Finset ℕ × List ℕ) : ℕ :=
  s.2.length + 2 * ((Finset.range (w * h)) \ s.1).card

/-- The flood-fill stack loop of `_detect_checkbox_fields_from_raster`:
pops a pixel, widens the component's bounding box, counts it and pushes
its dark unvisited neighbours.  Returns the visited set, the component
bounds and the pixel count. -/
def floodFill (pixels : List ℕ) (w h : ℕ) (visited : Finset ℕ)
    (stack : List ℕ) (minX maxX minY maxY count : ℕ) :
    Finset ℕ × ℕ × ℕ × ℕ × ℕ × ℕ :=
  match stack with
  | [] => (visited, minX, maxX, minY, maxY, count)
  | cur :: rest =>
    floodFill pixels w h
      (floodNbrs pixels w h (cur % w) (cur / w) (visited, rest)).1
      (floodNbrs pixels w h (cur % w) (cur / w) (visited, rest)).2
      (min minX (cur % w)) (max maxX (cur % w))
      (min minY (cur / w)) (max maxY (cur / w)) (count + 1)
termination_by fpMeasure w h (visited, stack)
decreasing_by
  have key : ∀ (s : Finset ℕ × List ℕ) (p : ℤ × ℤ),
      fpMeasure w h (floodPush pixels w h s p) ≤ fpMeasure w h s := by
    intro s p
    unfold floodPush
    split
    · exact le_refl _
    · rename_i hin
      push_neg at hin
      obtain ⟨hx0, hxw, hy0, hyh⟩ := hin
      split
      · exact le_refl _
      · split
        · exact le_refl _
        · rename_i hmem hlight
          have hxlt : p.1.toNat < w := by omega
          have hylt : p.2.toNat < h := by omega
          have hrange : p.2.toNat * w + p.1.toNat < w * h := by
            calc p.2.toNat * w + p.1.toNat < p.2.toNat * w + w := by omega
              _ = (p.2.toNat + 1) * w := by ring
              _ ≤ h * w := Nat.mul_le_mul_right w hylt
              _ = w * h := Nat.mul_comm h w
          have hsd : p.2.toNat * w + p.1.toNat ∈
              (Finset.range (w * h)) \ s.1 := by
            simp only [Finset.mem_sdiff, Finset.mem_range]
            exact ⟨hrange, hmem⟩
          have hcardpos : 0 < ((Finset.range (w * h)) \ s.1).card :=
            Finset.card_pos.mpr ⟨_, hsd⟩
          have hset : (Finset.range (w * h)) \
              insert (p.2.toNat * w + p.1.toNat) s.1 =
              ((Finset.range (w * h)) \ s.1).erase
                (p.2.toNat * w + p.1.toNat) := by
            ext a
            simp only [Finset.mem_sdiff, Finset.mem_insert, Finset.mem_erase,
              Finset.mem_range]
            tauto
          have hcard : ((Finset.range (w * h)) \
              insert (p.2.toNat * w + p.1.toNat) s.1).card =
              ((Finset.range (w * h)) \ s.1).card - 1 := by
            rw [hset]
            exact Finset.card_erase_of_mem hsd
          simp only [fpMeasure, List.length_cons]
          rw [hcard]
          omega
  have h4 : fpMeasure w h
      (floodNbrs pixels w h (cur % w) (cur / w) (visited, rest)) ≤
      fpMeasure w h (visited, rest) := by
    unfold floodNbrs
    exact le_trans (key _ _) (le_trans (key _ _) (le_trans (key _ _) (key _ _)))
  have heta : fpMeasure w h
      ((floodNbrs pixels w h (cur % w) (cur / w) (visited, rest)).1,
       (floodNbrs pixels w h (cur % w) (cur / w) (visited, rest)).2) =
      fpMeasure w h (floodNbrs pixels w h (cur % w) (cur / w) (visited, rest)) :=
    rfl
  have hlt : fpMeasure w h (visited, rest) <
      fpMeasure w h (visited, cur :: rest) := by
    simp only [fpMeasure, List.length_cons]
    omega
  exact lt_of_le_of_lt (heta.trans_le h4) hlt

/-- The connected-component scan loop of
`_detect_checkbox_fields_from_raster`, over the row-major pixel indices:
each dark unvisited pixel seeds a flood fill, and the component's bounding
box passes the size, aspect-ratio and fill filters before being converted
to PDF units, clamped and appended as a checkbox candidate. -/
def rasterCheckboxLoop (pixels : List ℕ) (w h : ℕ) (pb : Bounds) :
    List ℕ → Finset ℕ → List Field
  | [], _ => []
  | idx :: todo, visited =>
    if idx ∈ visited then rasterCheckboxLoop pixels w h pb todo visited
    else if 170 ≤ pixels.getD idx 255 then
      rasterCheckboxLoop pixels w h pb todo visited
    else
      let r := floodFill pixels w h (insert idx visited) [idx]
        (idx % w) (idx % w) (idx / w) (idx / w) 0
      let boxW := r.2.2.1 - r.2.1 + 1
      let boxH := r.2.2.2.2.1 - r.2.2.2.1 + 1
      if boxW < 10 ∨ boxH < 10 then rasterCheckboxLoop pixels w h pb todo r.1
      else if 60 < boxW ∨ 60 < boxH then
        rasterCheckboxLoop pixels w h pb todo r.1
      else if (if boxH = 0 then (0 : ℚ) else (boxW : ℚ) / boxH) < 7/10 ∨
          13/10 < (if boxH = 0 then (0 : ℚ) else (boxW : ℚ) / boxH) then
        rasterCheckboxLoop pixels w h pb todo r.1
      else if boxW * boxH = 0 then rasterCheckboxLoop pixels w h pb todo r.1
      else if 7/20 < (r.2.2.2.2.2 : ℚ) / (boxW * boxH) then
        rasterCheckboxLoop pixels w h pb todo r.1
      else
        ⟨FType.checkbox,
          clampRect ⟨(r.2.1 : ℚ) / 2, ((h : ℚ) - (r.2.2.2.2.1 + 1)) / 2,
            ((r.2.2.1 : ℚ) + 1) / 2, ((h : ℚ) - r.2.2.2.1) / 2⟩ pb,
          false⟩ :: rasterCheckboxLoop pixels w h pb todo r.1

/-- `_detect_checkbox_fields_from_raster`, from the rendered grayscale
image onward (`render`/`to_pil` are external library calls): the image is
given by its pixel width `w`, height `h` and row-major bytes, rendered at
scale 2. -/
def detectCheckboxFieldsFromRaster (pixels : List ℕ) (w h : ℕ)
    (pb : Bounds) : List Field :=
  dedupeFieldSpecs (rasterCheckboxLoop pixels w h pb (List.range (h * w)) ∅)

/-- Maximal runs of dark (`< threshold`) pixels along one scan line,
as `(start, end)` index pairs; `pos` is the current index and the last
argument an open run's start. -/
def darkRuns : List ℕ → ℕ → Option ℕ → List (ℕ × ℕ)
  | [], _, none => []
  | [], pos, some st => [(st, pos - 1)]
  | p :: rest, pos, none =>
    if p < 170 then darkRuns rest (pos + 1) (some pos)
    else darkRuns rest (pos + 1) none
  | p :: rest, pos, some st =>
    if p < 170 then darkRuns rest (pos + 1) (some st)
    else (st, pos - 1) :: darkRuns rest (pos + 1) none

/-- The per-scan-line segment list of `_detect_line_fields_from_raster`:
dark runs of length at least `min_len_px = max(6, int(6 * scale)) = 12`. -/
def lineSegments (row : List ℕ) : List (ℕ × ℕ) :=
  (darkRuns row 0 none).filter fun s => 12 ≤ s.2 - s.1 + 1

/-- Scan line `y` of the image as a pixel list (`pixels[y*w:(y+1)*w]`). -/
def rowPixels (pixels : List ℕ) (w y : ℕ) : List ℕ :=
  (List.range w).map fun x => pixels.getD (y * w + x) 255

/-- Column `x` of the image as a pixel list (`pixels[y*w + x]` for each `y`). -/
def colPixels (pixels : List ℕ) (w h x : ℕ) : List ℕ :=
  (List.range h).map fun y => pixels.getD (y * w + x) 255

/-- The first unmatched segment that continues the active line
`(ax1, ax2)`: positive overlap, positive minimum width and overlap ratio
at least `0.7`.  Returns the segment's index and the merged span. -/
def findFirstSeg (ax1 ax2 : ℕ) : List (ℕ × ℕ) → List Bool → ℕ →
    Option (ℕ × ℕ × ℕ)
  | [], _, _ => none
  | (sx1, sx2) :: rest, matched, i =>
    if matched.getD i false then findFirstSeg ax1 ax2 rest matched (i + 1)
    else if min (ax2 : ℤ) (sx2 : ℤ) - max (ax1 : ℤ) (sx1 : ℤ) ≤ 0 then
      findFirstSeg ax1 ax2 rest matched (i + 1)
    else if min ((ax2 : ℤ) - ax1) ((sx2 : ℤ) - sx1) ≤ 0 then
      findFirstSeg ax1 ax2 rest matched (i + 1)
    else if ((min (ax2 : ℤ) (sx2 : ℤ) - max (ax1 : ℤ) (sx1 : ℤ) : ℤ) : ℚ) /
        ((min ((ax2 : ℤ) - ax1) ((sx2 : ℤ) - sx1) : ℤ) : ℚ) < 7/10 then
      findFirstSeg ax1 ax2 rest matched (i + 1)
    else some (i, min ax1 sx1, max ax2 sx2)

/-- One scan line's pass over the active lines `(p1, p2, c1, c2)` (primary
span, cross-scan-line span): an active line continued by a segment is
merged and kept active; one not continued is emitted if its thickness
`c2 - c1 + 1` is at most `max_thickness_px = max(2, int(2 * scale)) = 4`.
Returns the surviving actives, the updated matched flags and the emitted
lines, each in source order. -/
def procActive : List (ℕ × ℕ × ℕ × ℕ) → List (ℕ × ℕ) → List Bool → ℕ →
    List (ℕ × ℕ × ℕ × ℕ) × List Bool × List (ℕ × ℕ × ℕ × ℕ)
  | [], _, matched, _ => ([], matched, [])
  | a :: as, segs, matched, y =>
    match findFirstSeg a.1 a.2.1 segs matched 0 with
    | some (i, n1, n2) =>
      let rest := procActive as segs (matched.set i true) y
      ((n1, n2, a.2.2.1, y) :: rest.1, rest.2.1, rest.2.2)
    | none =>
      let rest := procActive as segs matched y
      (rest.1, rest.2.1,
       if a.2.2.2 - a.2.2.1 + 1 ≤ 4 then a :: rest.2.2 else rest.2.2)

/-- The segments of one scan line that continued no active line become new
active lines `(s1, s2, y, y)`, in segment order. -/
def unmatchedSegs (y : ℕ) : List (ℕ × ℕ) → List Bool → List (ℕ × ℕ × ℕ × ℕ)
  | [], _ => []
  | (s1, s2) :: rest, matched =>
    if matched.headD false then unmatchedSegs y rest matched.tail
    else (s1, s2, y, y) :: unmatchedSegs y rest matched.tail

/-- The line-sweep loop of `_detect_line_fields_from_raster` over the
given scan lines: tracks active lines across consecutive scan lines and
emits finished thin ones; remaining actives are flushed at the end. -/
def sweepLoop : List (List ℕ) → ℕ → List (ℕ × ℕ × ℕ × ℕ) →
    List (ℕ × ℕ × ℕ × ℕ)
  | [], _, active => active.filter fun a => a.2.2.2 - a.2.2.1 + 1 ≤ 4
  | row :: rows, y, active =>
    let segs := lineSegments row
    let step := procActive active segs (List.replicate segs.length false) y
    step.2.2 ++ sweepLoop rows (y + 1) (step.1 ++ unmatchedSegs y segs step.2.1)

/-- `has_vertical_at` of the raster line detector, over the detected
vertical lines `(vx1, vx2, vy1, vy2)`, with
`edge_tol_px = max(2, int(2 * scale)) = 4`. -/
def rasterHasVerticalAt (vls : List (ℕ × ℕ × ℕ × ℕ))
    (xPos yTop yBottom : ℚ) : Prop :=
  ∃ v ∈ vls, |((v.1 : ℚ) + v.2.1) / 2 - xPos| ≤ 4 ∧
    (v.2.2.1 : ℚ) ≤ yTop + 4 ∧ yBottom - 4 ≤ (v.2.2.2 : ℚ)

instance (vls : List (ℕ × ℕ × ℕ × ℕ)) (xPos yTop yBottom : ℚ) :
    Decidable (rasterHasVerticalAt vls xPos yTop yBottom) := by
  unfold rasterHasVerticalAt; infer_instance

/-- Stable insertion for the `sorted(..., key=lambda seg: (seg[2] + seg[3]) / 2.0)`
call on the detected horizontal lines. -/
def insertByCenter (p : ℕ × ℕ × ℕ × ℕ) :
    List (ℕ × ℕ × ℕ × ℕ) → List (ℕ × ℕ × ℕ × ℕ)
  | [] => [p]
  | q :: rest =>
    if ((p.2.2.1 : ℚ) + p.2.2.2) / 2 ≤ ((q.2.2.1 : ℚ) + q.2.2.2) / 2
    then p :: q :: rest else q :: insertByCenter p rest

/-- Stable sort of the horizontal lines by vertical center. -/
def sortByCenter : List (ℕ × ℕ × ℕ × ℕ) → List (ℕ × ℕ × ℕ × ℕ)
  | [] => []
  | p :: rest => insertByCenter p (sortByCenter rest)

/-- Outcome of the guard ladder of one inner (`j`) iteration of the raster
pairing loop: `skip` is the loop's `continue`, `stop` its `break` on a
too-tall gap, and `mk` carries a paired box `(x1, x2, top_y, bottom_y)`. -/
inductive RPairStep where
  | skip
  | stop
  | mk (x1 x2 : ℕ) (topY botY : ℚ)
deriving DecidableEq, Repr

/-- The guard ladder for one `(top, bottom)` pair of horizontal lines:
gap height within `[min_rect_height_px, max_rect_height_px] = [20, 240]`,
common span at least `min_rect_width_px = 40`, and vertical lines near
both ends. -/
def rasterPairStep (vls : List (ℕ × ℕ × ℕ × ℕ)) (top bot : ℕ × ℕ × ℕ × ℕ) :
    RPairStep :=
  let topY : ℚ := ((top.2.2.1 : ℚ) + top.2.2.2) / 2
  let botY : ℚ := ((bot.2.2.1 : ℚ) + bot.2.2.2) / 2
  if botY - topY < 20 then .skip
  else if 240 < botY - topY then .stop
  else
    let x1 := max top.1 bot.1
    let x2 := min top.2.1 bot.2.1
    if (x2 : ℤ) - x1 < 40 then .skip
    else if ¬ (rasterHasVerticalAt vls x1 topY botY ∧
        rasterHasVerticalAt vls x2 topY botY) then .skip
    else .mk x1 x2 topY botY

/-- The inner (`j`) loop of the raster pairing pass for one top line:
the first matching bottom line yields the paired box and its index
(the loop breaks on success and on a too-tall gap). -/
def rasterPairInner (vls : List (ℕ × ℕ × ℕ × ℕ)) (top : ℕ × ℕ × ℕ × ℕ) :
    List (ℕ × (ℕ × ℕ × ℕ × ℕ)) → Option (ℕ × ℕ × ℕ × ℚ × ℚ)
  | [] => none
  | (j, bot) :: rest =>
    match rasterPairStep vls top bot with
    | .skip => rasterPairInner vls top rest
    | .stop => none
    | .mk x1 x2 topY botY => some (j, x1, x2, topY, botY)

/-- The outer (`i`) loop of the raster pairing pass: paired boxes in
discovery order together with the indices added to `used_lines`. -/
def rasterPairOuter (vls : List (ℕ × ℕ × ℕ × ℕ)) :
    List (ℕ × (ℕ × ℕ × ℕ × ℕ)) → List (ℕ × ℕ × ℚ × ℚ) × List ℕ
  | [] => ([], [])
  | (i, top) :: rest =>
    match rasterPairInner vls top rest with
    | none => rasterPairOuter vls rest
    | some (j, x1, x2, topY, botY) =>
      let out := rasterPairOuter vls rest
      ((x1, x2, topY, botY) :: out.1, i :: j :: out.2)

/-- The paired-box emission loop: each box is inset by
`inset_px = max(2, int(1.5 * scale)) = 3`, skipped if the inset is
degenerate, converted to PDF units, clamped, and kept as a text candidate
when at least 10 units wide and 8 tall, multiline when at least 24 tall. -/
def rasterBoxFields (pb : Bounds) (h : ℕ) :
    List (ℕ × ℕ × ℚ × ℚ) → List Field
  | [] => []
  | (x1, x2, yt, yb) :: rest =>
    if (x2 : ℚ) - 3 ≤ (x1 : ℚ) + 3 ∨ yb - 3 ≤ yt + 3 then
      rasterBoxFields pb h rest
    else
      let rect := clampRect ⟨((x1 : ℚ) + 3) / 2, ((h : ℚ) - (yb - 3)) / 2,
        ((x2 : ℚ) - 3) / 2, ((h : ℚ) - (yt + 3)) / 2⟩ pb
      if rect.x2 - rect.x1 < 10 ∨ rect.y2 - rect.y1 < 8 then
        rasterBoxFields pb h rest
      else ⟨FType.text, rect, decide (24 ≤ rect.y2 - rect.y1)⟩ ::
        rasterBoxFields pb h rest

/-- The bare-underline loop over the sorted horizontal lines: a line not
consumed by the pairing pass becomes a clamped 14-unit-tall text candidate
above it, kept when at least 10 units wide. -/
def rasterUnderlineFields (pb : Bounds) (h : ℕ) (used : List ℕ) :
    List (ℕ × (ℕ × ℕ × ℕ × ℕ)) → List Field
  | [] => []
  | (idx, a) :: rest =>
    if idx ∈ used then rasterUnderlineFields pb h used rest
    else if a.2.1 ≤ a.1 then rasterUnderlineFields pb h used rest
    else
      let rect := clampRect ⟨(a.1 : ℚ) / 2,
        ((h : ℚ) - ((a.2.2.1 : ℚ) + a.2.2.2) / 2) / 2, (a.2.1 : ℚ) / 2,
        ((h : ℚ) - ((a.2.2.1 : ℚ) + a.2.2.2) / 2) / 2 + 14⟩ pb
      if rect.x2 - rect.x1 < 10 then rasterUnderlineFields pb h used rest
      else ⟨FType.text, rect, false⟩ :: rasterUnderlineFields pb h used rest

/-- `_detect_line_fields_from_raster`, from the rendered grayscale image
onward: a horizontal sweep over the rows and a vertical sweep over the
columns collect thin lines, pairs of horizontal lines with vertical ends
become boxed text candidates, leftover horizontal lines become underline
candidates, and the result is deduplicated. -/
def detectLineFieldsFromRaster (pixels : List ℕ) (w h : ℕ) (pb : Bounds) :
    List Field :=
  let hls := sweepLoop ((List.range h).map (rowPixels pixels w)) 0 []
  let vls := (sweepLoop ((List.range w).map (colPixels pixels w h)) 0 []).map
    fun a => (a.2.2.1, a.2.2.2, a.1, a.2.1)
  let hsorted := sortByCenter hls
  let paired := rasterPairOuter vls hsorted.enum
  dedupeFieldSpecs (rasterBoxFields pb h paired.1 ++
    rasterUnderlineFields pb h paired.2 hsorted.enum)


/-! ### Field naming and radio synthesis (`_add_form_fields`,
`_apply_detected_fields`, `form_creator._build_acroform`) -/

/-- A character kept verbatim by `re.sub(r"[^A-Za-z0-9_]+", "_", ...)`. -/
def isWordChar (c : Char) : Bool := c.isAlphanum || c = '_'

/-- `re.sub(r"[^A-Za-z0-9_]+", "_", s)`: each maximal run of non-word
characters becomes one underscore (`prevNon` tracks an open run). -/
def subNonWordAux (prevNon : Bool) : List Char → List Char
  | [] => []
  | c :: rest =>
    if isWordChar c then c :: subNonWordAux false rest
    else if prevNon then subNonWordAux true rest
    else '_' :: subNonWordAux true rest

/-- Python `.strip("_")`. -/
def stripUnderscores (l : List Char) : List Char :=
  ((l.dropWhile (fun c => c = '_')).reverse.dropWhile (fun c => c = '_')).reverse

/-- `re.sub(r"[^A-Za-z0-9_]+", "_", s).strip("_")`, the sanitizer used for
field names and radio export values. -/
def sanitizeName (s : String) : String :=
  ⟨stripUnderscores (subNonWordAux false s.data)⟩

/-- The name given by `_add_form_fields` to the field at (1-based) `idx`:
`safe_label or f"field_{idx}"`, with no collision suffixing. -/
def declFieldName (idx : Nat) (label : String) : String :=
  let safe := sanitizeName label
  if safe = "" then "field_" ++ Nat.repr idx else safe

/-- The names that `_add_form_fields` assigns along its
`enumerate(fields, start=1)` loop. -/
def declNamesAux (idx : Nat) : List String → List String
  | [] => []
  | label :: rest => declFieldName idx label :: declNamesAux (idx + 1) rest

/-- Name assignment of the declarative synthesizer, one name per field. -/
def declFieldNames (labels : List String) : List String := declNamesAux 1 labels

/-- The `auto_{field_index}` names `_apply_detected_fields` hands to one
page, together with the counter value after the page. -/
def autoNamesPage (idx : Nat) : List Field → List String × Nat
  | [] => ([], idx)
  | _ :: rest =>
    let out := autoNamesPage (idx + 1) rest
    (("auto_" ++ Nat.repr idx) :: out.1, out.2)

/-- The per-page loop of `_apply_detected_fields`; the counter continues
across pages instead of restarting. -/
def autoNamesAux (idx : Nat) : List (List Field) → List (List String)
  | [] => []
  | page :: rest =>
    let out := autoNamesPage idx page
    out.1 :: autoNamesAux out.2 rest

/-- Names of the detected-field synthesizer, `field_index` starting at 1. -/
def autoNames (fieldsByPage : List (List Field)) : List (List String) :=
  autoNamesAux 1 fieldsByPage

/-- One entry of a radio field's `options` list as the synthesizer probes
it: its raw `value` and its `rect` (`none` models a missing or non-list
entry, which the loop skips). -/
structure RadioOption where
  value : Option String
  rect : Option (List ℚ)
deriving DecidableEq, Repr

/-- A synthesized radio widget annotation: its rect, the name of its "on"
appearance state (the export value) and its `/AS` entry. -/
structure RadioKid where
  rect : List ℚ
  onState : String
  asState : String
deriving DecidableEq, Repr

/-- The synthesized parent radio field: shared `/T` name, `/V` and kids. -/
structure RadioParent where
  name : String
  value : Option String
  kids : List RadioKid
deriving DecidableEq, Repr

/-- The `while candidate in used` suffix loop of `normalize_export_value`,
with explicit fuel; the fuel `used.length + 1` given below is enough
because distinct suffixes give distinct candidates. -/
def exportSuffix (base : String) (used : List String) : Nat → Nat → String
  | 0, k => base ++ "_" ++ Nat.repr k
  | fuel + 1, k =>
    let cand := base ++ "_" ++ Nat.repr k
    if cand ∈ used then exportSuffix base used fuel (k + 1) else cand

/-- `normalize_export_value`. -/
def normalizeExportValue (value : Option String) (used : List String) :
    String :=
  let raw := sanitizeName (match value with | some s => s | none => "")
  let base := if raw = "" then "Option" else raw
  if base ∈ used then exportSuffix base used (used.length + 1) 2 else base

/-- An option accepted by the loop: a present rect of length 4. -/
def validOption (o : RadioOption) : Prop :=
  ∃ r, o.rect = some r ∧ r.length = 4

instance (o : RadioOption) : Decidable (validOption o) := by
  unfold validOption
  cases h : o.rect with
  | none => exact isFalse (by simp)
  | some r =>
    by_cases hr : r.length = 4
    · exact isTrue ⟨r, rfl, hr⟩
    · exact isFalse (by simp [hr])

/-- The option loop of the radio branch of `_build_acroform`: walks the
options carrying `used_values` and `selected_value`, building the kid
widgets; a kid's `/AS` is set to its export value exactly when
`selected_value == export_value` right after the match check. -/
def radioKidsLoop (dv : Option String) :
    List RadioOption → List String → Option String →
      List RadioKid × Option String
  | [], _, sel => ([], sel)
  | o :: rest, used, sel =>
    match o.rect with
    | none => radioKidsLoop dv rest used sel
    | some r =>
      if r.length ≠ 4 then radioKidsLoop dv rest used sel
      else
        let ev := normalizeExportValue o.value used
        let sel2 := if sel = none ∧ dv = o.value then some ev else sel
        let kid : RadioKid := ⟨r, ev, if sel2 = some ev then ev else "Off"⟩
        let out := radioKidsLoop dv rest (ev :: used) sel2
        (kid :: out.1, out.2)

/-- The radio branch of `form_creator._build_acroform` for one field:
parent dictionary name, `/V` (set only when `selected_value` is truthy)
and the kid widget list. -/
def radioField (safeName : String) (dv : Option String)
    (options : List RadioOption) : RadioParent :=
  let out := radioKidsLoop dv options [] none
  { name := safeName,
    value :=
      match out.2 with
      | some s => if s = "" then none else some s
      | none => none,
    kids := out.1 }


/-- Containment of a rect in the page bounds with ordered coordinates
(nonnegative width and height). -/
def rectInBounds (pb : Bounds) (r : Rect4) : Prop :=
  pb.left ≤ r.x1 ∧ r.x1 ≤ r.x2 ∧ r.x2 ≤ pb.right ∧
  pb.bottom ≤ r.y1 ∧ r.y1 ≤ r.y2 ∧ r.y2 ≤ pb.top

/-! ### Concrete pages used by the example theorems -/

/-- A US-Letter page: crop/media box `(0, 0, 612, 792)`. -/
def pbStd : Bounds := ⟨0, 0, 612, 792⟩

/-- Two horizontal strokes of length 120, 20 units apart, with matching
20-unit verticals at both ends: the drawn text box of the C6 example. -/
def opsBoxPage : List Op :=
  [.mOp [some 100, some 100], .lOp [some 220, some 100], .paintOp,
   .mOp [some 100, some 120], .lOp [some 220, some 120], .paintOp,
   .mOp [some 100, some 100], .lOp [some 100, some 120], .paintOp,
   .mOp [some 220, some 100], .lOp [some 220, some 120], .paintOp]

/-- A 16-by-16 stroked square drawn entirely outside the page. -/
def opsOutsideBox : List Op :=
  [.reOp [some (-100), some (-100), some 16, some 16], .paintOp]

/-- A form XObject whose own instruction stream draws a square and then
invokes itself: a self-referential `Do` chain through the object graph.
Its `/Matrix` shifts each nesting level 20 units to the right. -/
def envSelfRef : List (String × XForm) :=
  [("X", ⟨true, true, some [some 1, some 0, some 0, some 1, some 20, some 0],
    some ["X"],
    [.reOp [some 100, some 100, some 16, some 16], .paintOp, .doOp "X"]⟩)]

/-! ### Helper lemmas about the resolver -/

theorem dedupeAux_subset {seen : List (FType × Bool × ℚ × ℚ × ℚ × ℚ)}
    {l : List Field} {f : Field} (h : f ∈ dedupeAux seen l) : f ∈ l := by
  induction l generalizing seen with
  | nil => simp [dedupeAux] at h
  | cons g rest ih =>
    by_cases hg : fieldKey g ∈ seen
    · simp only [dedupeAux, if_pos hg] at h
      exact List.mem_cons_of_mem _ (ih h)
    · simp only [dedupeAux, if_neg hg, List.mem_cons] at h
      rcases h with h | h
      · exact h ▸ List.mem_cons_self _ _
      · exact List.mem_cons_of_mem _ (ih h)

theorem dedupeAux_key_fresh {seen : List (FType × Bool × ℚ × ℚ × ℚ × ℚ)}
    {l : List Field} {f : Field} (h : f ∈ dedupeAux seen l) :
    fieldKey f ∉ seen := by
  induction l generalizing seen with
  | nil => simp [dedupeAux] at h
  | cons g rest ih =>
    by_cases hg : fieldKey g ∈ seen
    · simp only [dedupeAux, if_pos hg] at h
      exact ih h
    · simp only [dedupeAux, if_neg hg, List.mem_cons] at h
      rcases h with h | h
      · exact h ▸ hg
      · have := ih h
        intro hmem
        exact this (List.mem_cons_of_mem _ hmem)

theorem dedupeAux_keys_nodup (seen : List (FType × Bool × ℚ × ℚ × ℚ × ℚ))
    (l : List Field) : ((dedupeAux seen l).map fieldKey).Nodup := by
  induction l generalizing seen with
  | nil => simp [dedupeAux]
  | cons g rest ih =>
    by_cases hg : fieldKey g ∈ seen
    · simpa [dedupeAux, if_pos hg] using ih seen
    · simp only [dedupeAux, if_neg hg, List.map_cons, List.nodup_cons]
      refine ⟨?_, ih _⟩
      intro hmem
      rcases List.mem_map.mp hmem with ⟨f, hf, hkey⟩
      have := dedupeAux_key_fresh hf
      exact this (hkey ▸ List.mem_cons_self _ _)

theorem dedupeAux_eq_self {seen : List (FType × Bool × ℚ × ℚ × ℚ × ℚ)}
    {l : List Field} (hnd : (l.map fieldKey).Nodup)
    (hfresh : ∀ f ∈ l, fieldKey f ∉ seen) : dedupeAux seen l = l := by
  induction l generalizing seen with
  | nil => simp [dedupeAux]
  | cons g rest ih =>
    have hg : fieldKey g ∉ seen := hfresh g (List.mem_cons_self _ _)
    simp only [List.map_cons, List.nodup_cons] at hnd
    simp only [dedupeAux, if_neg hg]
    congr 1
    refine ih hnd.2 ?_
    intro f hf
    simp only [List.mem_cons]
    rintro (hkey | hkey)
    · exact hnd.1 (hkey ▸ List.mem_map_of_mem fieldKey hf)
    · exact hfresh f (List.mem_cons_of_mem _ hf) hkey

theorem dedupe_keys_nodup (l : List Field) :
    ((dedupeFieldSpecs l).map fieldKey).Nodup := dedupeAux_keys_nodup [] l

theorem dedupe_subset {l : List Field} {f : Field}
    (h : f ∈ dedupeFieldSpecs l) : f ∈ l := dedupeAux_subset h

theorem dedupe_eq_self_of_nodup {l : List Field}
    (hnd : (l.map fieldKey).Nodup) : dedupeFieldSpecs l = l :=
  dedupeAux_eq_self hnd (by simp)

theorem dedupeAux_key_covered {seen : List (FType × Bool × ℚ × ℚ × ℚ × ℚ)}
    {l : List Field} {f : Field} (hf : f ∈ l) (hfresh : fieldKey f ∉ seen) :
    ∃ g ∈ dedupeAux seen l, fieldKey g = fieldKey f := by
  induction l generalizing seen with
  | nil => cases hf
  | cons g rest ih =>
    by_cases hg : fieldKey g ∈ seen
    · simp only [dedupeAux, if_pos hg]
      rcases List.mem_cons.mp hf with heq | hf
      · rw [heq] at hfresh; exact absurd hg hfresh
      · exact ih hf hfresh
    · simp only [dedupeAux, if_neg hg]
      rcases List.mem_cons.mp hf with heq | hf
      · exact ⟨g, List.mem_cons_self _ _, by rw [heq]⟩
      · by_cases hkey : fieldKey f = fieldKey g
        · exact ⟨g, List.mem_cons_self _ _, hkey.symm⟩
        · have hfresh2 : fieldKey f ∉ fieldKey g :: seen := by
            intro hmem
            rcases List.mem_cons.mp hmem with h | h
            · exact hkey h
            · exact hfresh h
          rcases ih hf hfresh2 with ⟨g2, hg2, hkey2⟩
          exact ⟨g2, List.mem_cons_of_mem _ hg2, hkey2⟩

theorem keepAgainst_nil (f : Field) : keepAgainst [] f = true := by
  by_cases h : f.ftype = FType.text <;> simp [keepAgainst, h]

/-- `_remove_text_overlaps` is the filter by `keepAgainst` of the box list
(also when the box list is empty, where the source returns the input as is). -/
theorem removeTextOverlaps_eq_filter (fields : List Field) :
    removeTextOverlaps fields = fields.filter (keepAgainst (boxRects fields)) := by
  unfold removeTextOverlaps
  by_cases h : (boxRects fields).isEmpty
  · simp only [h, if_pos]
    have hb : boxRects fields = [] := List.isEmpty_iff.mp h
    rw [hb]
    exact (List.filter_eq_self.mpr fun f _ => keepAgainst_nil f).symm
  · simp [h]

theorem keepAgainst_of_not_text {f : Field} (h : ¬ f.ftype = FType.text)
    (boxes : List Rect4) : keepAgainst boxes f = true := by
  simp [keepAgainst, h]

theorem boxRects_filter_keep (l : List Field) (boxes : List Rect4) :
    boxRects (l.filter (keepAgainst boxes)) = boxRects l := by
  unfold boxRects
  rw [List.filter_comm]
  congr 1
  apply List.filter_eq_self.mpr
  intro f hf
  simp only [List.mem_filter] at hf
  have hft : ¬ f.ftype = FType.text := by
    rcases hf with ⟨_, hbox⟩
    simp only [Bool.or_eq_true, decide_eq_true_eq] at hbox
    rcases hbox with h | h <;> simp [h]
  exact keepAgainst_of_not_text hft boxes

/-! ### Claims about the candidate resolver -/

/-- The partial key the C4 claim asserts to be duplicate-free:
kind plus the rect rounded to 0.1, without the multiline flag. -/
def kindRectKey (f : Field) : FType × ℚ × ℚ × ℚ × ℚ :=
  (f.ftype, roundTenth f.rect.x1, roundTenth f.rect.y1,
   roundTenth f.rect.x2, roundTenth f.rect.y2)

/-- Single-line text candidate used in the C4 counterexample. -/
def textSingle : Field := ⟨FType.text, ⟨0, 0, 50, 24⟩, false⟩

/-- Multi-line text candidate at the same rect. -/
def textMulti : Field := ⟨FType.text, ⟨0, 0, 50, 24⟩, true⟩

/-- C4, counterexample: two text candidates at the identical rect that differ
only in the multiline flag both survive `_dedupe_field_specs`, so two
resolved fields on one page do share an identical `(kind, rect rounded to
0.1)` key; deduplication only collapses identical
`(kind, multiline, rounded rect)` keys. -/
theorem claim_C4_counterexample :
    dedupeFieldSpecs [textSingle, textMulti] = [textSingle, textMulti] ∧
    kindRectKey textSingle = kindRectKey textMulti ∧
    textSingle ≠ textMulti := by
  refine ⟨by decide, rfl, by decide⟩

/-- C4 (amended): after `_dedupe_field_specs` no two candidates share an
identical `(kind, multiline, rect rounded to 0.1)` key; every survivor comes
from the input, and every input key class keeps exactly one representative. -/
theorem claim_C4_dedupe_key_invariant :
    (∀ l : List Field, ((dedupeFieldSpecs l).map fieldKey).Nodup) ∧
    (∀ (l : List Field) (f : Field), f ∈ dedupeFieldSpecs l → f ∈ l) ∧
    (∀ (l : List Field) (f : Field), f ∈ l →
      ∃ g ∈ dedupeFieldSpecs l, fieldKey g = fieldKey f) :=
  ⟨dedupe_keys_nodup,
   fun _ _ h => dedupe_subset h,
   fun _ _ hf => dedupeAux_key_covered hf (by simp)⟩

/-- Witness for C4: the amended invariant applied at a concrete input. -/
theorem claim_C4_dedupe_key_invariant_witness :
    textSingle ∈ [textSingle, textMulti] ∧
    (∃ g ∈ dedupeFieldSpecs [textSingle, textMulti],
      fieldKey g = fieldKey textMulti) :=
  ⟨claim_C4_dedupe_key_invariant.2.1 [textSingle, textMulti] textSingle
      (by decide),
   claim_C4_dedupe_key_invariant.2.2 [textSingle, textMulti] textMulti
      (by decide)⟩

/-- C5: `_remove_text_overlaps` is exactly the filter that keeps every
checkbox/radio candidate and drops a text candidate precisely when its rect
intersects some checkbox/radio rect; `_rects_intersect` (strict
inequalities, so edge contact does not count) coincides with positive-area
overlap on non-degenerate rects; and a text and a checkbox candidate at one
rect resolve to the checkbox alone. -/
theorem claim_C5_text_overlap_suppression :
    (∀ l : List Field,
      removeTextOverlaps l = l.filter (keepAgainst (boxRects l))) ∧
    (∀ (l : List Field) (f : Field), f ∈ l → ¬ f.ftype = FType.text →
      f ∈ removeTextOverlaps l) ∧
    (∀ (l : List Field) (f : Field), f ∈ l → f.ftype = FType.text →
      (f ∈ removeTextOverlaps l ↔
        ∀ b ∈ boxRects l, ¬ rectsIntersect f.rect b)) ∧
    (∀ a b : Rect4, a.x1 < a.x2 → a.y1 < a.y2 → b.x1 < b.x2 → b.y1 < b.y2 →
      (rectsIntersect a b ↔
        max a.x1 b.x1 < min a.x2 b.x2 ∧ max a.y1 b.y1 < min a.y2 b.y2)) ∧
    removeTextOverlaps
        [⟨FType.text, ⟨100, 100, 110, 110⟩, false⟩,
         ⟨FType.checkbox, ⟨100, 100, 110, 110⟩, false⟩] =
      [⟨FType.checkbox, ⟨100, 100, 110, 110⟩, false⟩] := by
  refine ⟨removeTextOverlaps_eq_filter, ?_, ?_, ?_, by decide⟩
  · intro l f hf hft
    rw [removeTextOverlaps_eq_filter]
    exact List.mem_filter.mpr ⟨hf, keepAgainst_of_not_text hft _⟩
  · intro l f hf hft
    rw [removeTextOverlaps_eq_filter, List.mem_filter]
    simp only [keepAgainst, hft, ne_eq, not_true_eq_false, if_false,
      Bool.not_eq_true', List.any_eq_false, decide_eq_true_eq]
    exact ⟨fun h => h.2, fun h => ⟨hf, h⟩⟩
  · intro a b hax hay hbx hby
    unfold rectsIntersect
    push_neg
    constructor
    · rintro ⟨h1, h2, h3, h4⟩
      exact ⟨max_lt (lt_min hax h2) (lt_min h1 hbx),
             max_lt (lt_min hay h4) (lt_min h3 hby)⟩
    · rintro ⟨hx, hy⟩
      exact ⟨(le_max_right _ _).trans_lt (hx.trans_le (min_le_left _ _)),
             (le_max_left _ _).trans_lt (hx.trans_le (min_le_right _ _)),
             (le_max_right _ _).trans_lt (hy.trans_le (min_le_left _ _)),
             (le_max_left _ _).trans_lt (hy.trans_le (min_le_right _ _))⟩

/-! ### Decimal representation of naturals (for name/export freshness) -/

theorem toDigitsCore_eq_digits (fuel : ℕ) :
    ∀ (n : ℕ) (ds : List Char), 0 < n → n < fuel →
      Nat.toDigitsCore 10 fuel n ds =
        ((Nat.digits 10 n).map Nat.digitChar).reverse ++ ds := by
  induction fuel with
  | zero => intro n ds h1 h2; omega
  | succ fuel ih =>
    intro n ds hpos hlt
    have hdig : Nat.digits 10 n = n % 10 :: Nat.digits 10 (n / 10) :=
      Nat.digits_def' (by norm_num) hpos
    by_cases hdiv : n / 10 = 0
    · have h10 : n < 10 := (Nat.div_eq_zero_iff (by norm_num)).mp hdiv
      have hmod : n % 10 = n := Nat.mod_eq_of_lt h10
      simp [Nat.toDigitsCore, hdiv, hdig, hmod]
    · have hpos2 : 0 < n / 10 := Nat.pos_of_ne_zero hdiv
      have hlt2 : n / 10 < fuel := by
        have hself : n / 10 < n := Nat.div_lt_self hpos (by norm_num)
        omega
      simp only [Nat.toDigitsCore, hdiv, if_false]
      rw [ih (n / 10) _ hpos2 hlt2, hdig]
      simp

theorem natRepr_eq_digits {n : ℕ} (hpos : 0 < n) :
    Nat.repr n = (((Nat.digits 10 n).map Nat.digitChar).reverse).asString := by
  unfold Nat.repr Nat.toDigits
  rw [toDigitsCore_eq_digits (n + 1) n [] hpos (by omega)]
  simp

theorem digitChar_inj_below :
    ∀ d1, d1 < 10 → ∀ d2, d2 < 10 →
      Nat.digitChar d1 = Nat.digitChar d2 → d1 = d2 := by decide

theorem map_digitChar_inj :
    ∀ {l1 l2 : List ℕ}, (∀ d ∈ l1, d < 10) → (∀ d ∈ l2, d < 10) →
      l1.map Nat.digitChar = l2.map Nat.digitChar → l1 = l2 := by
  intro l1
  induction l1 with
  | nil => intro l2 _ _ h; cases l2 <;> simp_all
  | cons d rest ih =>
    intro l2 h1 h2 h
    cases l2 with
    | nil => simp at h
    | cons e rest2 =>
      simp only [List.map_cons, List.cons.injEq] at h
      have hd : d = e := digitChar_inj_below d (h1 d (by simp)) e
        (h2 e (by simp)) h.1
      have ht : rest = rest2 := ih (fun x hx => h1 x (by simp [hx]))
        (fun x hx => h2 x (by simp [hx])) h.2
      rw [hd, ht]

theorem natRepr_injective : Function.Injective Nat.repr := by
  intro a b h
  rcases Nat.eq_zero_or_pos a with rfl | ha
  · rcases Nat.eq_zero_or_pos b with rfl | hb
    · rfl
    · exfalso
      rw [natRepr_eq_digits hb] at h
      have hchars : ['0'] = ((Nat.digits 10 b).map Nat.digitChar).reverse := by
        have := congrArg String.data h
        simpa [List.asString, Nat.repr, Nat.toDigits, Nat.toDigitsCore] using this
      have hlen : (Nat.digits 10 b).length = 1 := by
        have := congrArg List.length hchars
        simpa using this.symm
      rcases List.length_eq_one.mp hlen with ⟨d, hd⟩
      rw [hd] at hchars
      simp only [List.map_cons, List.map_nil, List.reverse_cons,
        List.reverse_nil, List.nil_append, List.cons.injEq] at hchars
      have hd10 : d < 10 := Nat.digits_lt_base (by norm_num) (hd ▸ List.mem_cons_self d [])
      have hd0 : (0 : ℕ) = d := digitChar_inj_below 0 (by norm_num) d hd10 hchars.1
      rw [← hd0] at hd
      have hof := Nat.ofDigits_digits 10 b
      rw [hd] at hof
      simp [Nat.ofDigits] at hof
      omega
  · rcases Nat.eq_zero_or_pos b with rfl | hb
    · exfalso
      rw [natRepr_eq_digits ha] at h
      have hchars : ((Nat.digits 10 a).map Nat.digitChar).reverse = ['0'] := by
        have := congrArg String.data h
        simpa [List.asString, Nat.repr, Nat.toDigits, Nat.toDigitsCore] using this
      have hlen : (Nat.digits 10 a).length = 1 := by
        have := congrArg List.length hchars
        simpa using this
      rcases List.length_eq_one.mp hlen with ⟨d, hd⟩
      rw [hd] at hchars
      simp only [List.map_cons, List.map_nil, List.reverse_cons,
        List.reverse_nil, List.nil_append, List.cons.injEq] at hchars
      have hd10 : d < 10 := Nat.digits_lt_base (by norm_num) (hd ▸ List.mem_cons_self d [])
      have hd0 : d = 0 := digitChar_inj_below d hd10 0 (by norm_num) hchars.1
      rw [hd0] at hd
      have hof := Nat.ofDigits_digits 10 a
      rw [hd] at hof
      simp [Nat.ofDigits] at hof
      omega
    · rw [natRepr_eq_digits ha, natRepr_eq_digits hb] at h
      have hchars := congrArg String.data h
      simp only [List.asString] at hchars
      have hrev : ((Nat.digits 10 a).map Nat.digitChar).reverse =
          ((Nat.digits 10 b).map Nat.digitChar).reverse := by
        simpa using hchars
      have hmap : (Nat.digits 10 a).map Nat.digitChar =
          (Nat.digits 10 b).map Nat.digitChar :=
        List.reverse_injective hrev
      have hdig : Nat.digits 10 a = Nat.digits 10 b :=
        map_digitChar_inj
          (fun d hd => Nat.digits_lt_base (by norm_num) hd)
          (fun d hd => Nat.digits_lt_base (by norm_num) hd) hmap
      exact Nat.digits.injective 10 hdig

/-! ### Export-value freshness and the radio loop -/

theorem suffixCand_inj (base : String) :
    Function.Injective (fun k : ℕ => base ++ "_" ++ Nat.repr k) := by
  intro k1 k2 h
  apply natRepr_injective
  apply String.ext
  have hd := congrArg String.data h
  simp only [String.data_append, List.append_assoc] at hd
  exact List.append_cancel_left (List.append_cancel_left hd)

theorem exportSuffix_not_mem (base : String) (used : List String) :
    ∀ (fuel k : ℕ),
      ((List.range' k fuel).filter
        (fun j => decide ((base ++ "_" ++ Nat.repr j) ∈ used))).length < fuel →
      exportSuffix base used fuel k ∉ used := by
  intro fuel
  induction fuel with
  | zero => intro k h; omega
  | succ fuel ih =>
    intro k h
    by_cases hc : (base ++ "_" ++ Nat.repr k) ∈ used
    · rw [List.range'_succ] at h
      simp [List.filter_cons, hc] at h
      simp only [exportSuffix, hc, if_true]
      exact ih (k + 1) (by omega)
    · simp [exportSuffix, hc]

theorem exportSuffix_fresh (base : String) (used : List String) :
    exportSuffix base used (used.length + 1) 2 ∉ used := by
  apply exportSuffix_not_mem
  have hsub : List.Subperm
      (((List.range' 2 (used.length + 1)).filter
        (fun j => decide ((base ++ "_" ++ Nat.repr j) ∈ used))).map
          (fun j => base ++ "_" ++ Nat.repr j)) used := by
    apply List.Nodup.subperm
    · apply List.Nodup.map
      · intro a b hab
        exact suffixCand_inj base hab
      · exact (List.nodup_range' 2 (used.length + 1)).filter _
    · intro s hs
      rcases List.mem_map.mp hs with ⟨j, hj, rfl⟩
      exact of_decide_eq_true (List.mem_filter.mp hj).2
  have hlen := hsub.length_le
  rw [List.length_map] at hlen
  omega

theorem normalizeExportValue_fresh (value : Option String)
    (used : List String) : normalizeExportValue value used ∉ used := by
  unfold normalizeExportValue
  by_cases hb : (if sanitizeName (match value with | some s => s | none => "") = ""
      then "Option"
      else sanitizeName (match value with | some s => s | none => "")) ∈ used
  · simp only [hb, if_true]
    exact exportSuffix_fresh _ used
  · simp only [hb, if_false]
    exact not_false

theorem appendUnderscore_ne_empty (base t : String) : base ++ "_" ++ t ≠ "" := by
  intro h
  have hd := congrArg String.data h
  simp [String.data_append] at hd

theorem exportSuffix_ne_empty (base : String) (used : List String) :
    ∀ fuel k, exportSuffix base used fuel k ≠ "" := by
  intro fuel
  induction fuel with
  | zero => intro k; exact appendUnderscore_ne_empty base _
  | succ fuel ih =>
    intro k
    by_cases hc : (base ++ "_" ++ Nat.repr k) ∈ used
    · simp only [exportSuffix, hc, if_true]
      exact ih (k + 1)
    · simp only [exportSuffix, hc, if_false]
      exact appendUnderscore_ne_empty base _

theorem normalizeExportValue_ne_empty (value : Option String)
    (used : List String) : normalizeExportValue value used ≠ "" := by
  unfold normalizeExportValue
  set raw := sanitizeName (match value with | some s => s | none => "") with hraw
  by_cases hr : raw = ""
  · simp only [hr, if_true]
    by_cases hb : ("Option" : String) ∈ used
    · simp only [hb, if_true]; exact exportSuffix_ne_empty _ _ _ _
    · simp only [hb, if_false]; decide
  · simp only [hr, if_false]
    by_cases hb : raw ∈ used
    · simp only [hb, if_true]; exact exportSuffix_ne_empty _ _ _ _
    · simp only [hb, if_false]; exact hr

theorem radioKidsLoop_fresh (dv : Option String) :
    ∀ (options : List RadioOption) (used : List String) (sel : Option String)
      (k : RadioKid), k ∈ (radioKidsLoop dv options used sel).1 →
        k.onState ∉ used := by
  intro options
  induction options with
  | nil => intro used sel k hk; simp [radioKidsLoop] at hk
  | cons o rest ih =>
    intro used sel k hk
    cases horect : o.rect with
    | none =>
      simp only [radioKidsLoop, horect] at hk
      exact ih used sel k hk
    | some r =>
      simp only [radioKidsLoop, horect] at hk
      by_cases hr : r.length ≠ 4
      · rw [if_pos hr] at hk
        exact ih used sel k hk
      · rw [if_neg hr] at hk
        simp only [List.mem_cons] at hk
        rcases hk with rfl | hk
        · exact normalizeExportValue_fresh o.value used
        · have := ih (normalizeExportValue o.value used :: used) _ k hk
          intro hmem
          exact this (List.mem_cons_of_mem _ hmem)

theorem radioKidsLoop_nodup (dv : Option String) :
    ∀ (options : List RadioOption) (used : List String) (sel : Option String),
      ((radioKidsLoop dv options used sel).1.map RadioKid.onState).Nodup := by
  intro options
  induction options with
  | nil => intro used sel; simp [radioKidsLoop]
  | cons o rest ih =>
    intro used sel
    cases horect : o.rect with
    | none => simp only [radioKidsLoop, horect]; exact ih used sel
    | some r =>
      simp only [radioKidsLoop, horect]
      by_cases hr : r.length ≠ 4
      · rw [if_pos hr]; exact ih used sel
      · rw [if_neg hr]
        simp only [List.map_cons, List.nodup_cons]
        constructor
        · intro hmem
          rcases List.mem_map.mp hmem with ⟨k, hk, hkey⟩
          have := radioKidsLoop_fresh dv rest
            (normalizeExportValue o.value used :: used) _ k hk
          exact this (hkey ▸ List.mem_cons_self _ _)
        · exact ih _ _

theorem radioKidsLoop_as_cases (dv : Option String) :
    ∀ (options : List RadioOption) (used : List String) (sel : Option String)
      (k : RadioKid), k ∈ (radioKidsLoop dv options used sel).1 →
        k.asState = k.onState ∨ k.asState = "Off" := by
  intro options
  induction options with
  | nil => intro used sel k hk; simp [radioKidsLoop] at hk
  | cons o rest ih =>
    intro used sel k hk
    cases horect : o.rect with
    | none => simp only [radioKidsLoop, horect] at hk; exact ih used sel k hk
    | some r =>
      simp only [radioKidsLoop, horect] at hk
      by_cases hr : r.length ≠ 4
      · rw [if_pos hr] at hk; exact ih used sel k hk
      · rw [if_neg hr] at hk
        simp only [List.mem_cons] at hk
        rcases hk with rfl | hk
        · by_cases hsel : (if sel = none ∧ dv = o.value
              then some (normalizeExportValue o.value used) else sel) =
              some (normalizeExportValue o.value used)
          · left; simp [hsel]
          · right; simp [hsel]
        · exact ih _ _ k hk

theorem radioKidsLoop_sel_frozen (dv : Option String) :
    ∀ (options : List RadioOption) (used : List String) (s : String),
      (radioKidsLoop dv options used (some s)).2 = some s := by
  intro options
  induction options with
  | nil => intro used s; simp [radioKidsLoop]
  | cons o rest ih =>
    intro used s
    cases horect : o.rect with
    | none => simp only [radioKidsLoop, horect]; exact ih used s
    | some r =>
      simp only [radioKidsLoop, horect]
      by_cases hr : r.length ≠ 4
      · rw [if_pos hr]; exact ih used s
      · rw [if_neg hr]
        simp only [reduceCtorEq, false_and, if_false]
        exact ih _ s

theorem radioKidsLoop_off_of_sel_mem (dv : Option String) :
    ∀ (options : List RadioOption) (used : List String) (s : String),
      s ∈ used → ∀ k ∈ (radioKidsLoop dv options used (some s)).1,
        k.asState = "Off" := by
  intro options
  induction options with
  | nil => intro used s hs k hk; simp [radioKidsLoop] at hk
  | cons o rest ih =>
    intro used s hs k hk
    cases horect : o.rect with
    | none => simp only [radioKidsLoop, horect] at hk; exact ih used s hs k hk
    | some r =>
      simp only [radioKidsLoop, horect] at hk
      by_cases hr : r.length ≠ 4
      · rw [if_pos hr] at hk; exact ih used s hs k hk
      · rw [if_neg hr] at hk
        simp only [reduceCtorEq, false_and, if_false, List.mem_cons] at hk
        rcases hk with rfl | hk
        · have hne : normalizeExportValue o.value used ≠ s := by
            intro heq
            exact normalizeExportValue_fresh o.value used (heq ▸ hs)
          simp only []
          rw [if_neg]
          intro heq
          exact hne (Option.some.inj heq).symm
        · exact ih _ s (List.mem_cons_of_mem _ hs) k hk

theorem radioKidsLoop_nomatch (dv : Option String) :
    ∀ (options : List RadioOption) (used : List String),
      (∀ o ∈ options, validOption o → dv ≠ o.value) →
      (∀ k ∈ (radioKidsLoop dv options used none).1, k.asState = "Off") ∧
        (radioKidsLoop dv options used none).2 = none := by
  intro options
  induction options with
  | nil => intro used _; simp [radioKidsLoop]
  | cons o rest ih =>
    intro used hno
    have hrest : ∀ o2 ∈ rest, validOption o2 → dv ≠ o2.value :=
      fun o2 h2 => hno o2 (List.mem_cons_of_mem _ h2)
    cases horect : o.rect with
    | none => simp only [radioKidsLoop, horect]; exact ih used hrest
    | some r =>
      simp only [radioKidsLoop, horect]
      by_cases hr : r.length ≠ 4
      · rw [if_pos hr]; exact ih used hrest
      · rw [if_neg hr]
        have hvalid : validOption o := ⟨r, horect, by omega⟩
        have hne : dv ≠ o.value := hno o (List.mem_cons_self _ _) hvalid
        simp only [hne, and_false, if_false]
        refine ⟨?_, (ih _ hrest).2⟩
        intro k hk
        simp only [List.mem_cons] at hk
        rcases hk with rfl | hk
        · simp
        · exact (ih _ hrest).1 k hk

theorem radioKidsLoop_match (dv : Option String) :
    ∀ (options : List RadioOption) (used : List String),
      (∃ o ∈ options, validOption o ∧ dv = o.value) →
      ∃ k ∈ (radioKidsLoop dv options used none).1,
        k.asState = k.onState ∧
        (radioKidsLoop dv options used none).2 = some k.onState ∧
        ∀ k2 ∈ (radioKidsLoop dv options used none).1,
          k2.onState ≠ k.onState → k2.asState = "Off" := by
  intro options
  induction options with
  | nil => intro used h; simp at h
  | cons o rest ih =>
    intro used hex
    cases horect : o.rect with
    | none =>
      simp only [radioKidsLoop, horect]
      apply ih used
      rcases hex with ⟨o2, ho2, hv, hdv⟩
      rcases List.mem_cons.mp ho2 with rfl | ho2
      · rcases hv with ⟨r, hrect, _⟩
        rw [horect] at hrect
        cases hrect
      · exact ⟨o2, ho2, hv, hdv⟩
    | some r =>
      simp only [radioKidsLoop, horect]
      by_cases hr : r.length ≠ 4
      · rw [if_pos hr]
        apply ih used
        rcases hex with ⟨o2, ho2, hv, hdv⟩
        rcases List.mem_cons.mp ho2 with rfl | ho2
        · rcases hv with ⟨r2, hrect, hlen⟩
          rw [horect] at hrect
          cases hrect
          exact absurd hlen hr
        · exact ⟨o2, ho2, hv, hdv⟩
      · rw [if_neg hr]
        by_cases hmatch : dv = o.value
        · set ev := normalizeExportValue o.value used with hev
          have hcond : (True ∧ dv = o.value) := ⟨trivial, hmatch⟩
          rw [if_pos hcond, if_pos rfl]
          refine ⟨⟨r, ev, ev⟩, List.mem_cons_self _ _, rfl, ?_, ?_⟩
          · exact radioKidsLoop_sel_frozen dv rest (ev :: used) ev
          · intro k2 hk2 hne2
            simp only [List.mem_cons] at hk2
            rcases hk2 with rfl | hk2
            · exact absurd rfl hne2
            · exact radioKidsLoop_off_of_sel_mem dv rest (ev :: used) ev
                (List.mem_cons_self _ _) k2 hk2
        · simp only [hmatch, and_false, if_false]
          have hex2 : ∃ o2 ∈ rest, validOption o2 ∧ dv = o2.value := by
            rcases hex with ⟨o2, ho2, hv, hdv⟩
            rcases List.mem_cons.mp ho2 with rfl | ho2
            · exact absurd hdv hmatch
            · exact ⟨o2, ho2, hv, hdv⟩
          rcases ih (normalizeExportValue o.value used :: used) hex2 with
            ⟨k, hk, hkon, hksel, hkoff⟩
          refine ⟨k, List.mem_cons_of_mem _ hk, hkon, hksel, ?_⟩
          intro k2 hk2 hne2
          simp only [List.mem_cons] at hk2
          rcases hk2 with rfl | hk2
          · simp
          · exact hkoff k2 hk2 hne2

theorem radioKidsLoop_on_ne_empty (dv : Option String) :
    ∀ (options : List RadioOption) (used : List String) (sel : Option String)
      (k : RadioKid), k ∈ (radioKidsLoop dv options used sel).1 →
        k.onState ≠ "" := by
  intro options
  induction options with
  | nil => intro used sel k hk; simp [radioKidsLoop] at hk
  | cons o rest ih =>
    intro used sel k hk
    cases horect : o.rect with
    | none => simp only [radioKidsLoop, horect] at hk; exact ih used sel k hk
    | some r =>
      simp only [radioKidsLoop, horect] at hk
      by_cases hr : r.length ≠ 4
      · rw [if_pos hr] at hk; exact ih used sel k hk
      · rw [if_neg hr] at hk
        simp only [List.mem_cons] at hk
        rcases hk with rfl | hk
        · exact normalizeExportValue_ne_empty o.value used
        · exact ih _ _ k hk

/-- C1, counterexample: default value `B` with a single sibling whose raw
option value is `B!` and whose export value is therefore the sanitized
`B`.  The default matches the child's export value, yet no child is
selected: the widget's appearance state stays `Off` and the parent carries
no value, because the source compares the default against the raw option
value, not the export value. -/
theorem claim_C1_counterexample :
    (radioField "choice" (some "B")
        [⟨some "B!", some [0, 0, 10, 10]⟩]).kids =
      [⟨[0, 0, 10, 10], "B", "Off"⟩] ∧
    (radioField "choice" (some "B")
        [⟨some "B!", some [0, 0, 10, 10]⟩]).value = none := by
  constructor <;> decide

/-- C1 (amended): radio synthesis groups the sibling widgets under one
parent with the given shared name; export values are pairwise distinct;
every widget's `/AS` is its export value or `Off`; when the default value
matches no valid option's raw value, every `/AS` is `Off` and no `/V` is
set; when it matches some valid option's raw value, exactly the first such
widget is on and `/V` equals its export value; and the three-sibling
`A`/`B`/`C` example with default `B` selects exactly the `B` widget. -/
theorem claim_C1_radio_synthesis :
    (∀ (sn : String) (dv : Option String) (options : List RadioOption),
      (radioField sn dv options).name = sn) ∧
    (∀ (sn : String) (dv : Option String) (options : List RadioOption),
      (((radioField sn dv options).kids.map RadioKid.onState)).Nodup) ∧
    (∀ (sn : String) (dv : Option String) (options : List RadioOption),
      ∀ k ∈ (radioField sn dv options).kids,
        k.asState = k.onState ∨ k.asState = "Off") ∧
    (∀ (sn : String) (dv : Option String) (options : List RadioOption),
      (∀ o ∈ options, validOption o → dv ≠ o.value) →
      (∀ k ∈ (radioField sn dv options).kids, k.asState = "Off") ∧
        (radioField sn dv options).value = none) ∧
    (∀ (sn : String) (dv : Option String) (options : List RadioOption),
      (∃ o ∈ options, validOption o ∧ dv = o.value) →
      ∃ k ∈ (radioField sn dv options).kids,
        k.asState = k.onState ∧
        (radioField sn dv options).value = some k.onState ∧
        ∀ k2 ∈ (radioField sn dv options).kids,
          k2.onState ≠ k.onState → k2.asState = "Off") ∧
    radioField "choice" (some "B")
        [⟨some "A", some [10, 10, 20, 20]⟩,
         ⟨some "B", some [30, 10, 40, 20]⟩,
         ⟨some "C", some [50, 10, 60, 20]⟩] =
      ⟨"choice", some "B",
        [⟨[10, 10, 20, 20], "A", "Off"⟩,
         ⟨[30, 10, 40, 20], "B", "B"⟩,
         ⟨[50, 10, 60, 20], "C", "Off"⟩]⟩ := by
  refine ⟨fun sn dv options => rfl, ?_, ?_, ?_, ?_, by decide⟩
  · intro sn dv options
    exact radioKidsLoop_nodup dv options [] none
  · intro sn dv options k hk
    exact radioKidsLoop_as_cases dv options [] none k hk
  · intro sn dv options hno
    have h := radioKidsLoop_nomatch dv options [] hno
    refine ⟨h.1, ?_⟩
    simp only [radioField, h.2]
  · intro sn dv options hex
    rcases radioKidsLoop_match dv options [] hex with ⟨k, hk, hkon, hksel, hkoff⟩
    refine ⟨k, hk, hkon, ?_, hkoff⟩
    have hne : k.onState ≠ "" :=
      radioKidsLoop_on_ne_empty dv options [] none k hk
    simp only [radioField, hksel, hne, if_false]

/-- Witness for C1: the amended theorem applied at the `A`/`B`/`C` radio
group with default `B`, discharging both the no-match and the match
hypotheses on concrete inputs. -/
theorem claim_C1_radio_synthesis_witness :
    ((∀ k ∈ (radioField "choice" (some "Z")
        [⟨some "A", some [10, 10, 20, 20]⟩]).kids, k.asState = "Off") ∧
      (radioField "choice" (some "Z")
        [⟨some "A", some [10, 10, 20, 20]⟩]).value = none) ∧
    (∃ k ∈ (radioField "choice" (some "B")
        [⟨some "A", some [10, 10, 20, 20]⟩,
         ⟨some "B", some [30, 10, 40, 20]⟩,
         ⟨some "C", some [50, 10, 60, 20]⟩]).kids,
      k.asState = k.onState ∧
      (radioField "choice" (some "B")
        [⟨some "A", some [10, 10, 20, 20]⟩,
         ⟨some "B", some [30, 10, 40, 20]⟩,
         ⟨some "C", some [50, 10, 60, 20]⟩]).value = some k.onState ∧
      ∀ k2 ∈ (radioField "choice" (some "B")
        [⟨some "A", some [10, 10, 20, 20]⟩,
         ⟨some "B", some [30, 10, 40, 20]⟩,
         ⟨some "C", some [50, 10, 60, 20]⟩]).kids,
        k2.onState ≠ k.onState → k2.asState = "Off") :=
  ⟨claim_C1_radio_synthesis.2.2.2.1 "choice" (some "Z") _ (by decide),
   claim_C1_radio_synthesis.2.2.2.2.1 "choice" (some "B") _ (by decide)⟩

theorem autoPrefix_inj :
    Function.Injective (fun k : ℕ => "auto_" ++ Nat.repr k) := by
  intro k1 k2 h
  apply natRepr_injective
  apply String.ext
  have hd := congrArg String.data h
  simp only [String.data_append] at hd
  exact List.append_cancel_left hd

theorem autoNamesPage_spec (idx : ℕ) (page : List Field) :
    autoNamesPage idx page =
      ((List.range page.length).map (fun i => "auto_" ++ Nat.repr (idx + i)),
       idx + page.length) := by
  induction page generalizing idx with
  | nil => simp [autoNamesPage]
  | cons f rest ih =>
    simp only [autoNamesPage, ih (idx + 1), List.length_cons,
      List.range_succ_eq_map, List.map_cons, List.map_map, Prod.mk.injEq,
      List.cons.injEq]
    refine ⟨⟨by simp, ?_⟩, by omega⟩
    apply List.map_congr_left
    intro i _
    simp only [Function.comp]
    congr 2
    omega

theorem autoNamesAux_join (fbp : List (List Field)) :
    ∀ idx, (autoNamesAux idx fbp).flatten =
      (List.range ((fbp.map List.length).sum)).map
        (fun i => "auto_" ++ Nat.repr (idx + i)) := by
  induction fbp with
  | nil => intro idx; simp [autoNamesAux]
  | cons page rest ih =>
    intro idx
    simp only [autoNamesAux, autoNamesPage_spec, List.flatten_cons, ih,
      List.map_cons, List.sum_cons, List.range_add, List.map_append,
      List.map_map]
    congr 1
    apply List.map_congr_left
    intro i _
    simp only [Function.comp]
    congr 2
    omega

/-- C3, counterexample: two declarative fields that share the label
`Name` receive the same field name from `_add_form_fields` — there is no
collision suffixing, so the two synthesized fields share a name. -/
theorem claim_C3_counterexample :
    declFieldNames ["Name", "Name"] = ["Name", "Name"] ∧
    ¬ (declFieldNames ["Name", "Name"]).Nodup := by
  constructor <;> decide

/-- C3 (amended): auto-detected fields are named `auto_1`, `auto_2`, …
sequentially across the whole document (the counter does not restart per
page) and those names are unique; the declarative synthesizer sanitizes
the label (collapsing non-alphanumeric runs to underscores) with
`field_<index>` as fallback for an empty result, but applies no collision
suffix: fields whose labels sanitize identically share one name. -/
theorem claim_C3_field_names :
    (∀ fbp : List (List Field),
      (autoNames fbp).flatten =
        (List.range ((fbp.map List.length).sum)).map
          (fun i => "auto_" ++ Nat.repr (1 + i))) ∧
    (∀ fbp : List (List Field), ((autoNames fbp).flatten).Nodup) ∧
    (∀ (idx1 idx2 : ℕ) (l1 l2 : String),
      sanitizeName l1 = sanitizeName l2 → sanitizeName l1 ≠ "" →
        declFieldName idx1 l1 = declFieldName idx2 l2) := by
  refine ⟨fun fbp => autoNamesAux_join fbp 1, ?_, ?_⟩
  · intro fbp
    rw [show autoNames fbp = autoNamesAux 1 fbp from rfl,
      autoNamesAux_join fbp 1]
    apply List.Nodup.map
    · intro a b hab
      have := autoPrefix_inj hab
      omega
    · exact List.nodup_range _
  · intro idx1 idx2 l1 l2 hsan hne
    unfold declFieldName
    rw [if_neg hne, ← hsan, if_neg hne]

/-- Witness for C3: the name-collision clause applied to two concrete
labels that sanitize to the same string. -/
theorem claim_C3_field_names_witness :
    declFieldName 1 "First Name" = declFieldName 7 "First_Name" :=
  claim_C3_field_names.2.2 1 7 "First Name" "First_Name" (by decide)
    (by decide)

/-! ### Every candidate field carries a clamped rect -/

theorem clampRect_inBounds {pb : Bounds} (h1 : pb.left ≤ pb.right)
    (h2 : pb.bottom ≤ pb.top) (r : Rect4) :
    rectInBounds pb (clampRect r pb) := by
  have ha1l : pb.left ≤ max pb.left (min r.x1 pb.right) := le_max_left _ _
  have ha1r : max pb.left (min r.x1 pb.right) ≤ pb.right :=
    max_le h1 (min_le_right _ _)
  have ha2l : pb.left ≤ max pb.left (min r.x2 pb.right) := le_max_left _ _
  have ha2r : max pb.left (min r.x2 pb.right) ≤ pb.right :=
    max_le h1 (min_le_right _ _)
  have hb1l : pb.bottom ≤ max pb.bottom (min r.y1 pb.top) := le_max_left _ _
  have hb1r : max pb.bottom (min r.y1 pb.top) ≤ pb.top :=
    max_le h2 (min_le_right _ _)
  have hb2l : pb.bottom ≤ max pb.bottom (min r.y2 pb.top) := le_max_left _ _
  have hb2r : max pb.bottom (min r.y2 pb.top) ≤ pb.top :=
    max_le h2 (min_le_right _ _)
  simp only [clampRect, rectInBounds]
  by_cases hx : max pb.left (min r.x2 pb.right) < max pb.left (min r.x1 pb.right)
  · by_cases hy :
        max pb.bottom (min r.y2 pb.top) < max pb.bottom (min r.y1 pb.top)
    · simp only [if_pos hx, if_pos hy]
      exact ⟨ha2l, hx.le, ha1r, hb2l, hy.le, hb1r⟩
    · simp only [if_pos hx, if_neg hy]
      exact ⟨ha2l, hx.le, ha1r, hb1l, le_of_not_lt hy, hb2r⟩
  · by_cases hy :
        max pb.bottom (min r.y2 pb.top) < max pb.bottom (min r.y1 pb.top)
    · simp only [if_neg hx, if_pos hy]
      exact ⟨ha1l, le_of_not_lt hx, ha2r, hb2l, hy.le, hb1r⟩
    · simp only [if_neg hx, if_neg hy]
      exact ⟨ha1l, le_of_not_lt hx, ha2r, hb1l, le_of_not_lt hy, hb2r⟩

theorem addLineSegment_fields (pb : Bounds) (x1 y1 x2 y2 sw : ℚ)
    (cls : ClsState) :
    (addLineSegment pb x1 y1 x2 y2 sw cls).fields = cls.fields := by
  simp only [addLineSegment]
  split <;> try rfl
  split <;> try rfl
  split <;> rfl

theorem addVerticalSegment_fields (pb : Bounds) (x1 y1 x2 y2 sw : ℚ)
    (cls : ClsState) :
    (addVerticalSegment pb x1 y1 x2 y2 sw cls).fields = cls.fields := by
  simp only [addVerticalSegment]
  split <;> try rfl
  split <;> try rfl
  split <;> rfl

theorem addTextFieldFromLine_clamped {pb : Bounds} (h1 : pb.left ≤ pb.right)
    (h2 : pb.bottom ≤ pb.top) (bbox : Rect4) (cls : ClsState)
    (hcls : ∀ f ∈ cls.fields, rectInBounds pb f.rect) :
    ∀ f ∈ (addTextFieldFromLine pb bbox cls).fields, rectInBounds pb f.rect := by
  simp only [addTextFieldFromLine]
  split
  · exact hcls
  · intro f hf
    rcases List.mem_append.mp hf with hf | hf
    · exact hcls f hf
    · rcases List.mem_singleton.mp hf with rfl
      exact clampRect_inBounds h1 h2 _

theorem addTextFieldFromBox_clamped {pb : Bounds} (h1 : pb.left ≤ pb.right)
    (h2 : pb.bottom ≤ pb.top) (bbox : Rect4) (sw : ℚ) (cls : ClsState)
    (hcls : ∀ f ∈ cls.fields, rectInBounds pb f.rect) :
    ∀ f ∈ (addTextFieldFromBox pb bbox sw cls).fields,
      rectInBounds pb f.rect := by
  simp only [addTextFieldFromBox]
  split
  · exact hcls
  · intro f hf
    rcases List.mem_append.mp hf with hf | hf
    · exact hcls f hf
    · rcases List.mem_singleton.mp hf with rfl
      exact clampRect_inBounds h1 h2 _

theorem addCheckbox_clamped {pb : Bounds} (h1 : pb.left ≤ pb.right)
    (h2 : pb.bottom ≤ pb.top) (bbox : Rect4) (cls : ClsState)
    (hcls : ∀ f ∈ cls.fields, rectInBounds pb f.rect) :
    ∀ f ∈ (addCheckbox pb bbox cls).fields, rectInBounds pb f.rect := by
  simp only [addCheckbox]
  intro f hf
  rcases List.mem_append.mp hf with hf | hf
  · exact hcls f hf
  · rcases List.mem_singleton.mp hf with rfl
    exact clampRect_inBounds h1 h2 _

theorem addRadio_clamped {pb : Bounds} (h1 : pb.left ≤ pb.right)
    (h2 : pb.bottom ≤ pb.top) (bbox : Rect4) (cls : ClsState)
    (hcls : ∀ f ∈ cls.fields, rectInBounds pb f.rect) :
    ∀ f ∈ (addRadio pb bbox cls).fields, rectInBounds pb f.rect := by
  simp only [addRadio]
  intro f hf
  rcases List.mem_append.mp hf with hf | hf
  · exact hcls f hf
  · rcases List.mem_singleton.mp hf with rfl
    exact clampRect_inBounds h1 h2 _

theorem classifySegLoop_clamped {pb : Bounds} (h1 : pb.left ≤ pb.right)
    (h2 : pb.bottom ≤ pb.top) (sw : ℚ) :
    ∀ (segs : List Seg) (cls : ClsState),
      (∀ f ∈ cls.fields, rectInBounds pb f.rect) →
      ∀ f ∈ (classifySegLoop pb sw segs cls).fields, rectInBounds pb f.rect := by
  intro segs
  induction segs with
  | nil => intro cls hcls; exact hcls
  | cons s rest ih =>
    intro cls hcls
    cases s with
    | rectSeg bbox lw =>
      simp only [classifySegLoop]
      split
      · exact ih cls hcls
      · split
        · apply ih
          intro f hf
          rw [addLineSegment_fields] at hf
          exact hcls f hf
        · split
          · exact ih _ (addCheckbox_clamped h1 h2 _ _ hcls)
          · apply ih
            intro f hf
            rw [addVerticalSegment_fields, addVerticalSegment_fields,
              addLineSegment_fields, addLineSegment_fields] at hf
            exact hcls f hf
    | line x1 y1 x2 y2 lw =>
      simp only [classifySegLoop]
      split
      · split
        · apply ih
          intro f hf
          rw [addVerticalSegment_fields] at hf
          exact hcls f hf
        · exact ih cls hcls
      · apply ih
        intro f hf
        rw [addLineSegment_fields] at hf
        exact hcls f hf
    | curve pts lw =>
      simp only [classifySegLoop]
      exact ih cls hcls

theorem classifyPath_clamped {pb : Bounds} (h1 : pb.left ≤ pb.right)
    (h2 : pb.bottom ≤ pb.top) (segs : List Seg) (cls : ClsState)
    (hcls : ∀ f ∈ cls.fields, rectInBounds pb f.rect) :
    ∀ f ∈ (classifyPath pb segs cls).fields, rectInBounds pb f.rect := by
  simp only [classifyPath]
  split
  · exact hcls
  · repeat' split
    all_goals
      first
        | exact hcls
        | exact addRadio_clamped h1 h2 _ _ hcls
        | exact addCheckbox_clamped h1 h2 _ _ hcls
        | exact classifySegLoop_clamped h1 h2 _ _ _ hcls

theorem classifyFold_clamped {pb : Bounds} (h1 : pb.left ≤ pb.right)
    (h2 : pb.bottom ≤ pb.top) :
    ∀ (sps : List (List Seg)) (cls : ClsState),
      (∀ f ∈ cls.fields, rectInBounds pb f.rect) →
      ∀ f ∈ (sps.foldl (fun acc sp => classifyPath pb sp acc) cls).fields,
        rectInBounds pb f.rect := by
  intro sps
  induction sps with
  | nil => intro cls hcls; exact hcls
  | cons sp rest ih =>
    intro cls hcls
    simp only [List.foldl_cons]
    exact ih _ (classifyPath_clamped h1 h2 sp cls hcls)

theorem stepOps_clamped {pb : Bounds} (h1 : pb.left ≤ pb.right)
    (h2 : pb.bottom ≤ pb.top) (env : List (String × XForm))
    (descend : Option (List String) → List Op → Mat6 → ℚ → ClsState → ClsState)
    (hdescend : ∀ res ops ctm lw cls,
      (∀ f ∈ cls.fields, rectInBounds pb f.rect) →
      ∀ f ∈ (descend res ops ctm lw cls).fields, rectInBounds pb f.rect) :
    ∀ (ops : List Op) (res : Option (List String)) (st : IState)
      (cls : ClsState), (∀ f ∈ cls.fields, rectInBounds pb f.rect) →
      ∀ f ∈ (stepOps pb env descend res ops st cls).fields,
        rectInBounds pb f.rect := by
  intro ops
  induction ops with
  | nil => intro res st cls hcls; exact hcls
  | cons op rest ih =>
    intro res st cls hcls
    cases op
    case paintOp =>
      simp only [stepOps]
      exact ih _ _ _ (classifyFold_clamped h1 h2 _ _ hcls)
    case doOp name =>
      simp only [stepOps]
      apply ih
      repeat' split
      all_goals first
        | exact hcls
        | exact hdescend _ _ _ _ _ hcls
    all_goals
      simp only [stepOps]
      repeat' split
      all_goals exact ih _ _ _ hcls

theorem parseStream_clamped {pb : Bounds} (h1 : pb.left ≤ pb.right)
    (h2 : pb.bottom ≤ pb.top) (env : List (String × XForm)) :
    ∀ (gas : ℕ) (res : Option (List String)) (ops : List Op) (ctm : Mat6)
      (lw : ℚ) (cls : ClsState),
      (∀ f ∈ cls.fields, rectInBounds pb f.rect) →
      ∀ f ∈ (parseStream pb env gas res ops ctm lw cls).fields,
        rectInBounds pb f.rect := by
  intro gas
  induction gas with
  | zero => intro res ops ctm lw cls hcls; exact hcls
  | succ gas ih =>
    intro res ops ctm lw cls hcls
    exact stepOps_clamped h1 h2 env (parseStream pb env gas)
      (fun res2 ops2 ctm2 lw2 cls2 hcls2 => ih res2 ops2 ctm2 lw2 cls2 hcls2)
      ops res _ cls hcls

theorem pairStep_clamped {pb : Bounds} (h1 : pb.left ≤ pb.right)
    (h2 : pb.bottom ≤ pb.top) (hls : List LineRec) (vls : List VertRec)
    (topSeg botSeg : LineRec) (rect : Rect4)
    (h : pairStep pb hls vls topSeg botSeg = .mk rect) :
    rectInBounds pb rect := by
  simp only [pairStep] at h
  repeat' split at h
  all_goals cases h
  all_goals exact clampRect_inBounds h1 h2 _

theorem pairInner_clamped {pb : Bounds} (h1 : pb.left ≤ pb.right)
    (h2 : pb.bottom ≤ pb.top) (hls : List LineRec) (vls : List VertRec)
    (topIdx : ℕ) (topSeg : LineRec) :
    ∀ (cands : List (Nat × LineRec)) (f : Field),
      (pairInner pb hls vls topIdx topSeg cands).2 = some f →
      rectInBounds pb f.rect := by
  intro cands
  induction cands with
  | nil => intro f h; simp [pairInner] at h
  | cons p rest ih =>
    obtain ⟨idx2, botSeg⟩ := p
    intro f h
    simp only [pairInner] at h
    cases hps : pairStep pb hls vls topSeg botSeg with
    | skip => rw [hps] at h; exact ih f h
    | stop =>
      rw [hps] at h
      dsimp only at h
      cases h
    | mk rect =>
      rw [hps] at h
      dsimp only at h
      split at h
      · exact ih f h
      · have hf : f = ⟨FType.text, rect,
            if rect.y2 - rect.y1 ≥ 24 then true else false⟩ :=
          (Option.some.inj h).symm
        rw [hf]
        exact pairStep_clamped h1 h2 hls vls topSeg botSeg rect hps

theorem pairOuter_clamped {pb : Bounds} (h1 : pb.left ≤ pb.right)
    (h2 : pb.bottom ≤ pb.top) (hls : List LineRec) (vls : List VertRec) :
    ∀ (cands : List (Nat × LineRec)) (f : Field),
      f ∈ (pairOuter pb hls vls cands).1 → rectInBounds pb f.rect := by
  intro cands
  induction cands with
  | nil => intro f h; simp [pairOuter] at h
  | cons p rest ih =>
    obtain ⟨idx, seg⟩ := p
    intro f h
    simp only [pairOuter] at h
    cases hinner : (pairInner pb hls vls idx seg rest).2 with
    | none => rw [hinner] at h; exact ih f h
    | some g =>
      rw [hinner] at h
      rcases List.mem_cons.mp h with rfl | h
      · exact pairInner_clamped h1 h2 hls vls idx seg rest f hinner
      · exact ih f h

theorem underlinePass_clamped {pb : Bounds} (h1 : pb.left ≤ pb.right)
    (h2 : pb.bottom ≤ pb.top) (used : List ℕ) :
    ∀ (cands : List (Nat × LineRec)) (cls : ClsState),
      (∀ f ∈ cls.fields, rectInBounds pb f.rect) →
      ∀ f ∈ (underlinePass pb used cands cls).fields, rectInBounds pb f.rect := by
  intro cands
  induction cands with
  | nil => intro cls hcls; exact hcls
  | cons p rest ih =>
    obtain ⟨idx, seg⟩ := p
    intro cls hcls
    simp only [underlinePass]
    split
    · exact ih cls hcls
    · split
      · exact ih cls hcls
      · exact ih _ (addTextFieldFromLine_clamped h1 h2 _ _ hcls)

theorem extractDrawnFields_clamped {pb : Bounds} (h1 : pb.left ≤ pb.right)
    (h2 : pb.bottom ≤ pb.top) (env : List (String × XForm))
    (pageRes : Option (List String)) (decodeOk : Bool) (ops : List Op) :
    ∀ f ∈ extractDrawnFields pb env pageRes decodeOk ops,
      rectInBounds pb f.rect := by
  unfold extractDrawnFields
  split
  · intro f hf; cases hf
  · intro f hf
    have hf2 := dedupe_subset hf
    set cls := parseStream pb env 9 pageRes ops matIdentity 1 ⟨[], [], []⟩
      with hcls
    have hbase : ∀ g ∈ cls.fields, rectInBounds pb g.rect := by
      apply parseStream_clamped h1 h2 env 9 pageRes ops matIdentity 1
      intro g hg
      cases hg
    by_cases hempty : cls.lineSegs = []
    · rw [if_pos hempty] at hf2
      exact hbase f hf2
    · rw [if_neg hempty] at hf2
      refine underlinePass_clamped h1 h2 _ _ _ ?_ f hf2
      intro g hg
      rcases List.mem_append.mp hg with hg | hg
      · exact hbase g hg
      · exact pairOuter_clamped h1 h2 _ _ _ g hg

theorem rasterCheckboxLoop_clamped {pb : Bounds} (h1 : pb.left ≤ pb.right)
    (h2 : pb.bottom ≤ pb.top) (pixels : List ℕ) (w h : ℕ)
    (todo : List ℕ) (visited : Finset ℕ) :
    ∀ f ∈ rasterCheckboxLoop pixels w h pb todo visited,
      rectInBounds pb f.rect := by
  induction todo generalizing visited with
  | nil => intro f hf; cases hf
  | cons idx rest ih =>
    intro f hf
    simp only [rasterCheckboxLoop] at hf
    repeat' split at hf
    all_goals
      first
        | exact ih _ f hf
        | (rw [List.mem_cons] at hf
           rcases hf with heq | hf
           · rw [heq]
             exact clampRect_inBounds h1 h2 _
           · exact ih _ f hf)

theorem detectCheckboxFieldsFromRaster_clamped {pb : Bounds}
    (h1 : pb.left ≤ pb.right) (h2 : pb.bottom ≤ pb.top)
    (pixels : List ℕ) (w h : ℕ) :
    ∀ f ∈ detectCheckboxFieldsFromRaster pixels w h pb,
      rectInBounds pb f.rect := fun f hf =>
  rasterCheckboxLoop_clamped h1 h2 pixels w h _ _ f (dedupe_subset hf)

theorem rasterBoxFields_clamped {pb : Bounds} (h1 : pb.left ≤ pb.right)
    (h2 : pb.bottom ≤ pb.top) (h : ℕ) (l : List (ℕ × ℕ × ℚ × ℚ)) :
    ∀ f ∈ rasterBoxFields pb h l, rectInBounds pb f.rect := by
  induction l with
  | nil => intro f hf; cases hf
  | cons p rest ih =>
    intro f hf
    obtain ⟨x1, x2, yt, yb⟩ := p
    simp only [rasterBoxFields] at hf
    split at hf
    · exact ih f hf
    · split at hf
      · exact ih f hf
      · rw [List.mem_cons] at hf
        rcases hf with heq | hf
        · rw [heq]
          exact clampRect_inBounds h1 h2 _
        · exact ih f hf

theorem rasterUnderlineFields_clamped {pb : Bounds} (h1 : pb.left ≤ pb.right)
    (h2 : pb.bottom ≤ pb.top) (h : ℕ) (used : List ℕ)
    (l : List (ℕ × (ℕ × ℕ × ℕ × ℕ))) :
    ∀ f ∈ rasterUnderlineFields pb h used l, rectInBounds pb f.rect := by
  induction l with
  | nil => intro f hf; cases hf
  | cons p rest ih =>
    intro f hf
    obtain ⟨idx, a⟩ := p
    simp only [rasterUnderlineFields] at hf
    split at hf
    · exact ih f hf
    · split at hf
      · exact ih f hf
      · split at hf
        · exact ih f hf
        · rw [List.mem_cons] at hf
          rcases hf with heq | hf
          · rw [heq]
            exact clampRect_inBounds h1 h2 _
          · exact ih f hf

theorem detectLineFieldsFromRaster_clamped {pb : Bounds}
    (h1 : pb.left ≤ pb.right) (h2 : pb.bottom ≤ pb.top)
    (pixels : List ℕ) (w h : ℕ) :
    ∀ f ∈ detectLineFieldsFromRaster pixels w h pb,
      rectInBounds pb f.rect := by
  intro f hf
  simp only [detectLineFieldsFromRaster] at hf
  have hf2 := dedupe_subset hf
  rcases List.mem_append.mp hf2 with hm | hm
  · exact rasterBoxFields_clamped h1 h2 h _ f hm
  · exact rasterUnderlineFields_clamped h1 h2 h _ _ f hm

/-! ### Claims about the interpreter and the drawn-field extractor -/

/-- C2, counterexample: a 16-by-16 stroked square drawn entirely outside
the page classifies as a checkbox and `_clamp_rect` collapses it to the
zero-area rect `[0, 0, 0, 0]`, which is returned in the candidate list:
clamped candidates are not guaranteed strictly positive width and height. -/
theorem claim_C2_counterexample :
    extractDrawnFields pbStd [] none true opsOutsideBox =
      [⟨FType.checkbox, ⟨0, 0, 0, 0⟩, false⟩] ∧
    ¬ (0 : ℚ) < (0 : ℚ) := by
  constructor
  · norm_num [extractDrawnFields, parseStream, stepOps, flushPath,
      transformPoint, matIdentity, matrixScale, ratSqrtModel, hypotModel,
      classifyPath, isCurveSeg, isRectOrLineSeg, isLineSeg, segsMaxLw,
      linePoints, curvePoints, classifySegLoop, addLineSegment,
      addVerticalSegment, addCheckbox, minLineLen, clampRect,
      bboxFromPoints, dedupeFieldSpecs, dedupeAux, fieldKey, roundTenth,
      roundHalfEven, Seg.lw, Rat.num_one, Rat.den_one, Nat.sqrt_one, pbStd,
      opsOutsideBox]
  · norm_num

/-- C2 (amended): on a page whose crop/media bounds are well formed, every
candidate returned by the vector classifier or by either raster detector
(the checkbox detector and the line detector) is contained in the page
bounds and has nonnegative (though possibly zero) width and height. -/
theorem claim_C2_clamped_candidates
    (pb : Bounds) (h1 : pb.left ≤ pb.right) (h2 : pb.bottom ≤ pb.top) :
    (∀ (env : List (String × XForm)) (pageRes : Option (List String))
       (decodeOk : Bool) (ops : List Op),
       ∀ f ∈ extractDrawnFields pb env pageRes decodeOk ops,
         rectInBounds pb f.rect) ∧
    (∀ (pixels : List ℕ) (w h : ℕ),
       ∀ f ∈ detectCheckboxFieldsFromRaster pixels w h pb,
         rectInBounds pb f.rect) ∧
    (∀ (pixels : List ℕ) (w h : ℕ),
       ∀ f ∈ detectLineFieldsFromRaster pixels w h pb,
         rectInBounds pb f.rect) :=
  ⟨fun env pageRes decodeOk ops =>
      extractDrawnFields_clamped h1 h2 env pageRes decodeOk ops,
   fun pixels w h => detectCheckboxFieldsFromRaster_clamped h1 h2 pixels w h,
   fun pixels w h => detectLineFieldsFromRaster_clamped h1 h2 pixels w h⟩

/-- Witness for C2: the amended containment applied to the degenerate
checkbox of the counterexample page. -/
theorem claim_C2_clamped_candidates_witness :
    rectInBounds pbStd (⟨FType.checkbox, ⟨0, 0, 0, 0⟩, false⟩ : Field).rect :=
  (claim_C2_clamped_candidates pbStd
    (by norm_num [pbStd]) (by norm_num [pbStd])).1 [] none true opsOutsideBox
    ⟨FType.checkbox, ⟨0, 0, 0, 0⟩, false⟩
    (by
      norm_num [extractDrawnFields, parseStream, stepOps, flushPath,
        transformPoint, matIdentity, matrixScale, ratSqrtModel, hypotModel,
        classifyPath, isCurveSeg, isRectOrLineSeg, isLineSeg, segsMaxLw,
        linePoints, curvePoints, classifySegLoop, addLineSegment,
        addVerticalSegment, addCheckbox, minLineLen, clampRect,
        bboxFromPoints, dedupeFieldSpecs, dedupeAux, fieldKey, roundTenth,
        roundHalfEven, Seg.lw, Rat.num_one, Rat.den_one, Nat.sqrt_one,
        pbStd, opsOutsideBox])

/-- C6, counterexample: for the drawn box with default stroke width 1, the
emitted Text candidate's rect is the paired box inset by the constant 1.5
units, not by the stroke width: the output rect differs from the
stroke-width-inset box `[101, 101, 219, 119]`. -/
theorem claim_C6_counterexample :
    extractDrawnFields pbStd [] none true opsBoxPage =
      [⟨FType.text, ⟨203/2, 203/2, 437/2, 237/2⟩, false⟩] ∧
    (⟨203/2, 203/2, 437/2, 237/2⟩ : Rect4) ≠ ⟨101, 101, 219, 119⟩ := by
  constructor
  · norm_num [extractDrawnFields, parseStream, stepOps, flushPath,
      transformPoint, matIdentity, matrixScale, ratSqrtModel, hypotModel,
      classifyPath, isCurveSeg, isRectOrLineSeg, isLineSeg, segsMaxLw,
      linePoints, curvePoints, classifySegLoop, addLineSegment,
      addVerticalSegment, addTextFieldFromLine, minLineLen, clampRect,
      bboxFromPoints, filterHorizontal, filterVertical, filterRectCands,
      insertByY, sortByY, pairStep, pairInner, pairOuter, hasVerticalAt,
      hasInternalLine, underlinePass, dedupeFieldSpecs, dedupeAux, fieldKey,
      roundTenth, roundHalfEven, Seg.lw, List.enum, Rat.num_one, Rat.den_one,
      Nat.sqrt_one, pbStd, opsBoxPage]
  · intro h
    have := congrArg Rect4.x1 h
    norm_num at this

/-- C6 (amended): two horizontal strokes of length 120 drawn 20 units
apart with matching verticals at both ends and no third crossing line
yield exactly one Text candidate, with `multiline = false` (the inset
height 17 is below the 24-unit threshold), whose rect is the paired box
inset by the fixed 1.5 units on each side; both lines are consumed, so no
bare-underline candidates appear. -/
theorem claim_C6_drawn_box_pairing :
    extractDrawnFields pbStd [] none true opsBoxPage =
      [⟨FType.text,
        ⟨100 + 3/2, 100 + 3/2, 220 - 3/2, 120 - 3/2⟩, false⟩] := by
  norm_num [extractDrawnFields, parseStream, stepOps, flushPath,
    transformPoint, matIdentity, matrixScale, ratSqrtModel, hypotModel,
    classifyPath, isCurveSeg, isRectOrLineSeg, isLineSeg, segsMaxLw,
    linePoints, curvePoints, classifySegLoop, addLineSegment,
    addVerticalSegment, addTextFieldFromLine, minLineLen, clampRect,
    bboxFromPoints, filterHorizontal, filterVertical, filterRectCands,
    insertByY, sortByY, pairStep, pairInner, pairOuter, hasVerticalAt,
    hasInternalLine, underlinePass, dedupeFieldSpecs, dedupeAux, fieldKey,
    roundTenth, roundHalfEven, Seg.lw, List.enum, Rat.num_one, Rat.den_one,
    Nat.sqrt_one, pbStd, opsBoxPage]

/-- C8: the per-page resolution step (deduplication followed by
text-overlap suppression) is idempotent. -/
theorem claim_C8_resolver_idempotent (l : List Field) :
    resolveCandidates (resolveCandidates l) = resolveCandidates l := by
  unfold resolveCandidates
  have hr : removeTextOverlaps (dedupeFieldSpecs l) =
      (dedupeFieldSpecs l).filter
        (keepAgainst (boxRects (dedupeFieldSpecs l))) :=
    removeTextOverlaps_eq_filter _
  have hnd : ((removeTextOverlaps (dedupeFieldSpecs l)).map fieldKey).Nodup := by
    rw [hr]
    exact List.Nodup.sublist ((List.filter_sublist _).map fieldKey)
      (dedupe_keys_nodup l)
  rw [dedupe_eq_self_of_nodup hnd,
    removeTextOverlaps_eq_filter (removeTextOverlaps (dedupeFieldSpecs l))]
  have hbox : boxRects (removeTextOverlaps (dedupeFieldSpecs l)) =
      boxRects (dedupeFieldSpecs l) := by
    rw [hr]
    exact boxRects_filter_keep _ _
  rw [hbox]
  apply List.filter_eq_self.mpr
  intro f hf
  rw [hr] at hf
  exact (List.mem_filter.mp hf).2

/-- C10: a restore with an empty graphics-state stack does not fail: it
resets the transform to the identity, the line width to 1.0, clears the
current point, the open path and the accumulated subpaths, and the
interpreter continues with the rest of the stream. -/
theorem claim_C10_restore_on_empty_stack
    (pb : Bounds) (env : List (String × XForm))
    (descend : Option (List String) → List Op → Mat6 → ℚ → ClsState → ClsState)
    (res : Option (List String)) (rest : List Op) (ctm : Mat6) (lw : ℚ)
    (cp : Option (ℚ × ℚ)) (sps : List (List Seg)) (path : List Seg)
    (cls : ClsState) :
    stepOps pb env descend res (Op.qRestore :: rest)
        ⟨ctm, [], lw, cp, sps, path⟩ cls =
      stepOps pb env descend res rest
        ⟨matIdentity, [], 1, none, [], []⟩ cls := rfl

set_option maxHeartbeats 4000000 in
/-- C7: interpretation of nested forms is depth-capped: an invocation
beyond the cap (Python depth above 8, i.e. zero remaining budget) returns
without touching the classifier state, and a self-referential `Do` chain
through the object graph terminates after exactly eight descents — the
square the form draws at each level appears eight times, each shifted by
the form's 20-unit matrix, and interpretation ends normally. -/
theorem claim_C7_nested_form_depth_cap :
    (∀ (pb : Bounds) (env : List (String × XForm))
      (res : Option (List String)) (ops : List Op) (ctm : Mat6) (lw : ℚ)
      (cls : ClsState), parseStream pb env 0 res ops ctm lw cls = cls) ∧
    extractDrawnFields pbStd envSelfRef (some ["X"]) true [.doOp "X"] =
      [⟨FType.checkbox, ⟨120, 100, 136, 116⟩, false⟩,
       ⟨FType.checkbox, ⟨140, 100, 156, 116⟩, false⟩,
       ⟨FType.checkbox, ⟨160, 100, 176, 116⟩, false⟩,
       ⟨FType.checkbox, ⟨180, 100, 196, 116⟩, false⟩,
       ⟨FType.checkbox, ⟨200, 100, 216, 116⟩, false⟩,
       ⟨FType.checkbox, ⟨220, 100, 236, 116⟩, false⟩,
       ⟨FType.checkbox, ⟨240, 100, 256, 116⟩, false⟩,
       ⟨FType.checkbox, ⟨260, 100, 276, 116⟩, false⟩] := by
  constructor
  · intro pb env res ops ctm lw cls
    rfl
  · norm_num [extractDrawnFields, parseStream, stepOps, flushPath,
      transformPoint, matIdentity, matrixMultiply, matrixScale,
      ratSqrtModel, hypotModel, classifyPath, isCurveSeg, isRectOrLineSeg,
      isLineSeg, segsMaxLw, linePoints, curvePoints, classifySegLoop,
      addLineSegment, addVerticalSegment, addCheckbox, minLineLen,
      clampRect, bboxFromPoints, dedupeFieldSpecs, dedupeAux, fieldKey,
      roundTenth, roundHalfEven, Seg.lw, List.lookup, floatList,
      Rat.num_one, Rat.den_one, Nat.sqrt_one, pbStd, envSelfRef]

/-- C9, counterexample: a `w` instruction with a non-numeric operand is
not skipped — it resets the line width to 1.0.  On a page that first sets
the line width to 5 and then draws the two-line box, inserting the
malformed `w` changes the result from no candidates (stroke 5 exceeds the
pairing threshold) to one Text candidate (stroke reset to 1), so the
stream with the malformed instruction does not interpret like the stream
without it. -/
theorem claim_C9_counterexample :
    extractDrawnFields pbStd [] none true
        (Op.wOp [some 5] :: Op.wOp [none] :: opsBoxPage) =
      [⟨FType.text, ⟨100 + 3/2, 100 + 3/2, 220 - 3/2, 120 - 3/2⟩, false⟩] ∧
    extractDrawnFields pbStd [] none true
        (Op.wOp [some 5] :: opsBoxPage) = [] := by
  constructor <;>
    norm_num [extractDrawnFields, parseStream, stepOps, flushPath,
      transformPoint, matIdentity, matrixScale, ratSqrtModel, hypotModel,
      classifyPath, isCurveSeg, isRectOrLineSeg, isLineSeg, segsMaxLw,
      linePoints, curvePoints, classifySegLoop, addLineSegment,
      addVerticalSegment, addTextFieldFromLine, minLineLen, clampRect,
      bboxFromPoints, filterHorizontal, filterVertical, filterRectCands,
      insertByY, sortByY, pairStep, pairInner, pairOuter, hasVerticalAt,
      hasInternalLine, underlinePass, dedupeFieldSpecs, dedupeAux, fieldKey,
      roundTenth, roundHalfEven, Seg.lw, List.enum, Rat.num_one,
      Rat.den_one, Nat.sqrt_one, pbStd, opsBoxPage]

/-- C9 (amended): a page whose content stream cannot be decoded yields an
empty candidate list; `cm`, `l`, `re` and the curve operators with a
non-numeric operand are skipped without aborting the rest of the stream; a
malformed `w` instead resets the line width to the default 1.0, and a
malformed `m` still flushes the open path and clears the current point —
interpretation always continues with the rest of the stream. -/
theorem claim_C9_malformed_operands :
    (∀ (pb : Bounds) (env : List (String × XForm))
      (pageRes : Option (List String)) (ops : List Op),
      extractDrawnFields pb env pageRes false ops = []) ∧
    (∀ (pb : Bounds) (env : List (String × XForm))
      (descend : Option (List String) → List Op → Mat6 → ℚ → ClsState → ClsState)
      (res : Option (List String)) (rest : List Op) (st : IState)
      (cls : ClsState) (tail : List (Option ℚ)),
      stepOps pb env descend res (Op.cmOp (none :: tail) :: rest) st cls =
        stepOps pb env descend res rest st cls) ∧
    (∀ (pb : Bounds) (env : List (String × XForm))
      (descend : Option (List String) → List Op → Mat6 → ℚ → ClsState → ClsState)
      (res : Option (List String)) (rest : List Op) (st : IState)
      (cls : ClsState) (tail : List (Option ℚ)),
      stepOps pb env descend res (Op.lOp (none :: tail) :: rest) st cls =
        stepOps pb env descend res rest st cls) ∧
    (∀ (pb : Bounds) (env : List (String × XForm))
      (descend : Option (List String) → List Op → Mat6 → ℚ → ClsState → ClsState)
      (res : Option (List String)) (rest : List Op) (st : IState)
      (cls : ClsState) (tail : List (Option ℚ)),
      stepOps pb env descend res (Op.reOp (none :: tail) :: rest) st cls =
        stepOps pb env descend res rest st cls) ∧
    (∀ (pb : Bounds) (env : List (String × XForm))
      (descend : Option (List String) → List Op → Mat6 → ℚ → ClsState → ClsState)
      (res : Option (List String)) (rest : List Op) (st : IState)
      (cls : ClsState) (tail : List (Option ℚ)),
      stepOps pb env descend res (Op.cOp (none :: tail) :: rest) st cls =
        stepOps pb env descend res rest st cls) ∧
    (∀ (pb : Bounds) (env : List (String × XForm))
      (descend : Option (List String) → List Op → Mat6 → ℚ → ClsState → ClsState)
      (res : Option (List String)) (rest : List Op) (st : IState)
      (cls : ClsState) (tail : List (Option ℚ)),
      stepOps pb env descend res (Op.vOp (none :: tail) :: rest) st cls =
        stepOps pb env descend res rest st cls) ∧
    (∀ (pb : Bounds) (env : List (String × XForm))
      (descend : Option (List String) → List Op → Mat6 → ℚ → ClsState → ClsState)
      (res : Option (List String)) (rest : List Op) (st : IState)
      (cls : ClsState) (tail : List (Option ℚ)),
      stepOps pb env descend res (Op.yOp (none :: tail) :: rest) st cls =
        stepOps pb env descend res rest st cls) ∧
    (∀ (pb : Bounds) (env : List (String × XForm))
      (descend : Option (List String) → List Op → Mat6 → ℚ → ClsState → ClsState)
      (res : Option (List String)) (rest : List Op) (st : IState)
      (cls : ClsState) (tail : List (Option ℚ)),
      stepOps pb env descend res (Op.wOp (none :: tail) :: rest) st cls =
        stepOps pb env descend res rest { st with lineWidth := 1 } cls) ∧
    (∀ (pb : Bounds) (env : List (String × XForm))
      (descend : Option (List String) → List Op → Mat6 → ℚ → ClsState → ClsState)
      (res : Option (List String)) (rest : List Op) (st : IState)
      (cls : ClsState) (tail : List (Option ℚ)),
      stepOps pb env descend res (Op.mOp (none :: tail) :: rest) st cls =
        stepOps pb env descend res rest
          { flushPath st with currentPoint := none } cls) := by
  refine ⟨fun pb env pageRes ops => rfl,
    fun pb env descend res rest st cls tail => rfl,
    ?_,
    fun pb env descend res rest st cls tail => rfl,
    fun pb env descend res rest st cls tail => rfl,
    fun pb env descend res rest st cls tail => rfl,
    fun pb env descend res rest st cls tail => rfl,
    fun pb env descend res rest st cls tail => rfl,
    fun pb env descend res rest st cls tail => rfl⟩
  intro pb env descend res rest st cls tail
  obtain ⟨ctm, stack, lw, cp, sps, path⟩ := st
  cases cp <;> rfl

/-- Witness for C5: the characterization applied at concrete candidates —
a checkbox sharing its rect with a text candidate survives, and two
concretely overlapping rects satisfy the positive-overlap equivalence. -/
theorem claim_C5_text_overlap_suppression_witness :
    (⟨FType.checkbox, ⟨100, 100, 110, 110⟩, false⟩ : Field) ∈
      removeTextOverlaps
        [⟨FType.text, ⟨100, 100, 110, 110⟩, false⟩,
         ⟨FType.checkbox, ⟨100, 100, 110, 110⟩, false⟩] ∧
    (rectsIntersect ⟨0, 0, 10, 10⟩ ⟨5, 5, 15, 15⟩ ↔
      max (0:ℚ) 5 < min 10 15 ∧ max (0:ℚ) 5 < min 10 15) :=
  ⟨claim_C5_text_overlap_suppression.2.1 _ _ (by decide) (by decide),
   claim_C5_text_overlap_suppression.2.2.2.1 ⟨0, 0, 10, 10⟩ ⟨5, 5, 15, 15⟩
     (by norm_num) (by norm_num) (by norm_num) (by norm_num)⟩
